import Mathlib

/-!
Shallow embedding of the ROM identification and loading subsystem of
Nuked-SC55-Render-Mac (src/backend/emu.cpp, src/backend/rom.h,
src/backend/rom_io.h, src/common/rom_loader.cpp), together with proofs
about its detection, completeness, loading and descrambling behaviour.

Bytes are modelled as `Nat` (with the byte range `< 256` made explicit
where it matters), paths as `String`, byte buffers as `List Nat`, and the
SHA-256 digest of a file as a `Nat` (the 256-bit value of the 32-byte
digest; two digests are equal iff the corresponding byte arrays are).
Filesystem access is modelled by passing the directory listing and file
contents in explicitly.
-/

namespace SC55

/-- The `Romset` enumeration from rom.h, in declaration order. -/
inductive Romset
  | MK2
  | ST
  | MK1
  | CM300
  | JV880
  | SCB55
  | RLP3237
  | SC155
  | SC155MK2
  deriving DecidableEq, Repr, Fintype

/-- Ordinal of a romset, matching the C++ enum value `(size_t)romset`. -/
def Romset.ord : Romset → Nat
  | .MK2 => 0
  | .ST => 1
  | .MK1 => 2
  | .CM300 => 3
  | .JV880 => 4
  | .SCB55 => 5
  | .RLP3237 => 6
  | .SC155 => 7
  | .SC155MK2 => 8

/-- All romsets in ordinal order (the loops `for i in 0..ROMSET_COUNT`). -/
def allRomsets : List Romset :=
  [.MK2, .ST, .MK1, .CM300, .JV880, .SCB55, .RLP3237, .SC155, .SC155MK2]

/-- The `rs_name_simple` table from emu.cpp, indexed by romset ordinal. -/
def rs_name_simple : Romset → String
  | .MK2 => "mk2"
  | .ST => "st"
  | .MK1 => "mk1"
  | .CM300 => "cm300"
  | .JV880 => "jv880"
  | .SCB55 => "scb55"
  | .RLP3237 => "rlp3237"
  | .SC155 => "sc155"
  | .SC155MK2 => "sc155mk2"

/-- `EMU_ParseRomsetName` from emu.cpp: scan romset ordinals in order and
return the first whose simple name matches. -/
def EMU_ParseRomsetName (name : String) : Option Romset :=
  allRomsets.find? (fun rs => rs_name_simple rs == name)

/-- The `EMU_RomMapLocation` enumeration (called `EMU_RomLocation` in
rom.h), in declaration order. -/
inductive RomLocation
  | ROM1
  | ROM2
  | SMROM
  | WAVEROM1
  | WAVEROM2
  | WAVEROM3
  | WAVEROM_CARD
  | WAVEROM_EXP
  deriving DecidableEq, Repr, Fintype

/-- Ordinal of a rom location, matching the C++ enum value. -/
def RomLocation.ord : RomLocation → Nat
  | .ROM1 => 0
  | .ROM2 => 1
  | .SMROM => 2
  | .WAVEROM1 => 3
  | .WAVEROM2 => 4
  | .WAVEROM3 => 5
  | .WAVEROM_CARD => 6
  | .WAVEROM_EXP => 7

/-- All rom locations in ordinal order (the loops
`for i in 0..EMU_ROMMAPLOCATION_COUNT`). -/
def allLocations : List RomLocation :=
  [.ROM1, .ROM2, .SMROM, .WAVEROM1, .WAVEROM2, .WAVEROM3, .WAVEROM_CARD, .WAVEROM_EXP]

/-- `EMU_IsWaverom` from emu.cpp. -/
def EMU_IsWaverom : RomLocation → Bool
  | .WAVEROM1 => true
  | .WAVEROM2 => true
  | .WAVEROM3 => true
  | .WAVEROM_CARD => true
  | .WAVEROM_EXP => true
  | _ => false

/-- `EMU_IsOptionalRom` from emu.cpp. -/
def EMU_IsOptionalRom (romset : Romset) (location : RomLocation) : Bool :=
  decide (romset = .JV880) &&
    (decide (location = .WAVEROM_CARD) || decide (location = .WAVEROM_EXP))

/-- `EMU_RomLoadStatus` from rom_io.h. -/
inductive RomLoadStatus
  | Loaded
  | Failed
  | Unused
  deriving DecidableEq, Repr

/-- `EMU_RomCompletionStatus` from rom_io.h. -/
inductive RomCompletionStatus
  | Present
  | Missing
  | Unused
  deriving DecidableEq, Repr

/-- `EMU_RomsetInfo` from rom_io.h: per rom location, a filesystem path and
an owned byte buffer. -/
structure RomsetInfo where
  rom_paths : RomLocation → String
  rom_data : RomLocation → List Nat

/-- `EMU_RomsetInfo::HasRom`: true if at least one of path or data is
populated for `location`. -/
def RomsetInfo.HasRom (info : RomsetInfo) (location : RomLocation) : Bool :=
  !(decide (info.rom_paths location = "") && decide (info.rom_data location = []))

/-- Write `rom_paths[location] = p`. -/
def RomsetInfo.setPath (info : RomsetInfo) (location : RomLocation) (p : String) : RomsetInfo :=
  { info with rom_paths := fun l => if l = location then p else info.rom_paths l }

/-- Write `rom_data[location] = d`. -/
def RomsetInfo.setData (info : RomsetInfo) (location : RomLocation) (d : List Nat) : RomsetInfo :=
  { info with rom_data := fun l => if l = location then d else info.rom_data l }

/-- `EMU_AllRomsetInfo` from rom_io.h: one `RomsetInfo` per romset. -/
structure AllRomsetInfo where
  romsets : Romset → RomsetInfo

/-- Update the entry of a single romset. -/
def AllRomsetInfo.modify (all : AllRomsetInfo) (rs : Romset) (f : RomsetInfo → RomsetInfo) :
    AllRomsetInfo :=
  ⟨fun r => if r = rs then f (all.romsets r) else all.romsets r⟩

/-- Write `romsets[rs].rom_paths[location] = p`. -/
def AllRomsetInfo.setPath (all : AllRomsetInfo) (rs : Romset) (location : RomLocation)
    (p : String) : AllRomsetInfo :=
  all.modify rs (fun info => info.setPath location p)

/-- Write `romsets[rs].rom_data[location] = d`. -/
def AllRomsetInfo.setData (all : AllRomsetInfo) (rs : Romset) (location : RomLocation)
    (d : List Nat) : AllRomsetInfo :=
  all.modify rs (fun info => info.setData location d)

/-- A default-initialized `EMU_RomsetInfo` (empty paths, empty data). -/
def emptyRomsetInfo : RomsetInfo :=
  ⟨fun _ => "", fun _ => []⟩

/-- A default-initialized `EMU_AllRomsetInfo`. -/
def emptyAllRomsetInfo : AllRomsetInfo :=
  ⟨fun _ => emptyRomsetInfo⟩

/-! ### The descrambling transform (`unscramble` in emu.cpp) -/

/-- The address-bit permutation table `aa` from `unscramble`. -/
def aa : List Nat :=
  [2, 0, 3, 4, 1, 9, 13, 10, 18, 17, 6, 15, 11, 16, 8, 5, 12, 7, 14, 19]

/-- The data-bit permutation table `dd` from `unscramble`. -/
def dd : List Nat :=
  [2, 0, 4, 5, 7, 6, 3, 1]

/-- The inverse permutation of `aa` (`aa (aaInv m) = m` for `m < 20`). -/
def aaInv : List Nat :=
  [1, 4, 0, 2, 3, 15, 10, 17, 14, 5, 7, 12, 16, 6, 18, 11, 13, 9, 8, 19]

/-- The inverse permutation of `dd` (`dd (ddInv m) = m` for `m < 8`). -/
def ddInv : List Nat :=
  [1, 7, 0, 6, 2, 3, 5, 4]

/-- The source-address computation of `unscramble`: keep the bank bits
`i & ~0xfffff` and OR in bit `tbl[j]` for every set offset bit `j` of `i`. -/
def scrambleAddress (tbl : List Nat) (i : Nat) : Nat :=
  (List.range 20).foldl
    (fun address j => if i.testBit j then address ||| 1 <<< tbl.getD j 0 else address)
    (2 ^ 20 * (i / 2 ^ 20))

/-- The data-bit permutation of `unscramble`: output bit `j` is input bit
`tbl[j]`. -/
def permuteData (tbl : List Nat) (b : Nat) : Nat :=
  (List.range 8).foldl
    (fun data j => if b.testBit (tbl.getD j 0) then data ||| 1 <<< j else data)
    0

/-- `unscramble` from emu.cpp, generalized over the two permutation tables:
destination byte `i` is the source byte at `scrambleAddress tbl i`, its bits
permuted through `dtbl`. The length is the source length (all call sites
pass equal-sized buffers). -/
def unscrambleWith (atbl dtbl : List Nat) (src : List Nat) : List Nat :=
  (List.range src.length).map
    (fun i => permuteData dtbl (src.getD (scrambleAddress atbl i) 0))

/-- `unscramble` from emu.cpp with its fixed tables `aa` and `dd`. -/
def unscramble (src : List Nat) : List Nat :=
  unscrambleWith aa dd src

/-! ### Bit-level facts about the transform -/

theorem listAny_congr {α : Type} {p q : α → Bool} :
    ∀ {l : List α}, (∀ x ∈ l, p x = q x) → l.any p = l.any q
  | [], _ => rfl
  | x :: l, h => by
    simp only [List.any_cons]
    rw [h x (List.mem_cons_self x l), listAny_congr (fun y hy => h y (List.mem_cons_of_mem x hy))]

theorem getD_eq_of_lt {l : List Nat} {n : Nat} (h : n < l.length) : l.getD n 0 = l.get ⟨n, h⟩ := by
  simp [List.getD_eq_getElem?_getD, List.getElem?_eq_getElem h]

theorem testBit_foldl_or (cond : Nat → Bool) (g : Nat → Nat) (js : List Nat) (init m : Nat) :
    ((js.foldl (fun a j => if cond j then a ||| 1 <<< g j else a) init).testBit m) =
      (init.testBit m || js.any (fun j => cond j && decide (g j = m))) := by
  induction js generalizing init with
  | nil => simp
  | cons j js ih =>
    simp only [List.foldl_cons, List.any_cons, ih]
    cases h : cond j with
    | false => simp [h]
    | true =>
      rw [if_pos rfl]
      simp only [Bool.true_and, Nat.testBit_or, Nat.one_shiftLeft, Nat.testBit_two_pow]
      rw [Bool.or_assoc]

theorem range_any_single (f : Nat → Bool) {n j0 : Nat} (hj0 : j0 < n) :
    (List.range n).any (fun j => f j && decide (j = j0)) = f j0 := by
  cases hf : f j0 with
  | true =>
    apply List.any_eq_true.mpr
    exact ⟨j0, List.mem_range.mpr hj0, by simp [hf]⟩
  | false =>
    apply List.any_eq_false.mpr
    intro j _
    by_cases h : j = j0
    · subst h; simp [hf]
    · simp [h]

theorem testBit_scrambleAddress_ge (tbl : List Nat)
    (htbl : ∀ j, j < 20 → tbl.getD j 0 < 20) (i m : Nat) (hm : 20 ≤ m) :
    (scrambleAddress tbl i).testBit m = i.testBit m := by
  rw [scrambleAddress, testBit_foldl_or (fun j => i.testBit j) (fun j => tbl.getD j 0)]
  have hany : (List.range 20).any (fun j => i.testBit j && decide (tbl.getD j 0 = m)) = false := by
    apply List.any_eq_false.mpr
    intro j hj
    have hlt := htbl j (List.mem_range.mp hj)
    simp only [Bool.and_eq_true, decide_eq_true_eq, not_and]
    intro _
    omega
  have h1 : (i / 2 ^ 20).testBit (m - 20) = i.testBit m := by
    rw [← Nat.shiftRight_eq_div_pow, Nat.testBit_shiftRight]
    congr 1
    omega
  rw [hany, Bool.or_false, Nat.testBit_mul_pow_two,
    decide_eq_true (show m ≥ 20 from hm), Bool.true_and, h1]

theorem testBit_scrambleAddress_lt (tbl : List Nat) (i m : Nat) (hm : m < 20) :
    (scrambleAddress tbl i).testBit m =
      (List.range 20).any (fun j => i.testBit j && decide (tbl.getD j 0 = m)) := by
  rw [scrambleAddress, testBit_foldl_or (fun j => i.testBit j) (fun j => tbl.getD j 0)]
  rw [Nat.testBit_mul_pow_two, decide_eq_false (show ¬(m ≥ 20) by omega), Bool.false_and,
    Bool.false_or]

theorem testBit_scrambleAddress_perm (t u : List Nat)
    (hmem : ∀ m, m < 20 → ∀ j, j < 20 → (decide (t.getD j 0 = m) = decide (j = u.getD m 0)))
    (hu : ∀ m, m < 20 → u.getD m 0 < 20) (i m : Nat) (hm : m < 20) :
    (scrambleAddress t i).testBit m = i.testBit (u.getD m 0) := by
  rw [testBit_scrambleAddress_lt t i m hm]
  rw [listAny_congr (fun j hj => by
    rw [hmem m hm j (List.mem_range.mp hj)])]
  exact range_any_single (fun j => i.testBit j) (hu m hm)

theorem aa_lt : ∀ j, j < 20 → aa.getD j 0 < 20 := by decide

theorem aaInv_lt : ∀ j, j < 20 → aaInv.getD j 0 < 20 := by decide

theorem aa_eq_iff : ∀ m, m < 20 → ∀ j, j < 20 →
    (decide (aa.getD j 0 = m) = decide (j = aaInv.getD m 0)) := by decide

theorem aaInv_eq_iff : ∀ m, m < 20 → ∀ j, j < 20 →
    (decide (aaInv.getD j 0 = m) = decide (j = aa.getD m 0)) := by decide

theorem aa_aaInv : ∀ m, m < 20 → aa.getD (aaInv.getD m 0) 0 = m := by decide

theorem aaInv_aa : ∀ m, m < 20 → aaInv.getD (aa.getD m 0) 0 = m := by decide

theorem scrambleAddress_aa_aaInv (i : Nat) :
    scrambleAddress aa (scrambleAddress aaInv i) = i := by
  apply Nat.eq_of_testBit_eq
  intro m
  by_cases hm : m < 20
  · rw [testBit_scrambleAddress_perm aa aaInv aa_eq_iff aaInv_lt _ m hm]
    rw [testBit_scrambleAddress_perm aaInv aa aaInv_eq_iff aa_lt i _ (aaInv_lt m hm)]
    rw [aa_aaInv m hm]
  · have hm := Nat.not_lt.mp hm
    rw [testBit_scrambleAddress_ge aa aa_lt _ m hm,
      testBit_scrambleAddress_ge aaInv aaInv_lt i m hm]

theorem scrambleAddress_aaInv_aa (i : Nat) :
    scrambleAddress aaInv (scrambleAddress aa i) = i := by
  apply Nat.eq_of_testBit_eq
  intro m
  by_cases hm : m < 20
  · rw [testBit_scrambleAddress_perm aaInv aa aaInv_eq_iff aa_lt _ m hm]
    rw [testBit_scrambleAddress_perm aa aaInv aa_eq_iff aaInv_lt i _ (aa_lt m hm)]
    rw [aaInv_aa m hm]
  · have hm := Nat.not_lt.mp hm
    rw [testBit_scrambleAddress_ge aaInv aaInv_lt _ m hm,
      testBit_scrambleAddress_ge aa aa_lt i m hm]

theorem scrambleAddress_div (tbl : List Nat) (htbl : ∀ j, j < 20 → tbl.getD j 0 < 20)
    (i : Nat) : scrambleAddress tbl i / 2 ^ 20 = i / 2 ^ 20 := by
  have h : scrambleAddress tbl i >>> 20 = i >>> 20 := by
    apply Nat.eq_of_testBit_eq
    intro m
    rw [Nat.testBit_shiftRight, Nat.testBit_shiftRight]
    exact testBit_scrambleAddress_ge tbl htbl i (20 + m) (by omega)
  rw [← Nat.shiftRight_eq_div_pow, ← Nat.shiftRight_eq_div_pow, h]

theorem scrambleAddress_lt (tbl : List Nat) (htbl : ∀ j, j < 20 → tbl.getD j 0 < 20)
    {i len : Nat} (hlen : len % 2 ^ 20 = 0) (hi : i < len) :
    scrambleAddress tbl i < len := by
  have hdiv := scrambleAddress_div tbl htbl i
  have h1 := Nat.div_add_mod (scrambleAddress tbl i) (2 ^ 20)
  have h2 : scrambleAddress tbl i % 2 ^ 20 < 2 ^ 20 := Nat.mod_lt _ (by norm_num)
  have h3 := Nat.div_add_mod len (2 ^ 20)
  have h4 : i / 2 ^ 20 < len / 2 ^ 20 :=
    Nat.div_lt_div_of_lt_of_dvd (Nat.dvd_of_mod_eq_zero hlen) hi
  omega

theorem testBit_permuteData (tbl : List Nat) (b m : Nat) :
    (permuteData tbl b).testBit m =
      if m < 8 then b.testBit (tbl.getD m 0) else false := by
  rw [permuteData, testBit_foldl_or (fun j => b.testBit (tbl.getD j 0)) (fun j => j)]
  simp only [Nat.zero_testBit, Bool.false_or]
  by_cases hm : m < 8
  · rw [if_pos hm]
    exact range_any_single (fun j => b.testBit (tbl.getD j 0)) hm
  · rw [if_neg hm]
    apply List.any_eq_false.mpr
    intro j hj
    have hlt := List.mem_range.mp hj
    have : j ≠ m := by omega
    simp [this]

theorem ddInv_lt : ∀ m, m < 8 → ddInv.getD m 0 < 8 := by decide

theorem dd_lt : ∀ m, m < 8 → dd.getD m 0 < 8 := by decide

theorem dd_ddInv : ∀ m, m < 8 → dd.getD (ddInv.getD m 0) 0 = m := by decide

theorem ddInv_dd : ∀ m, m < 8 → ddInv.getD (dd.getD m 0) 0 = m := by decide

theorem permuteData_inv (b : Nat) (hb : b < 256) :
    permuteData ddInv (permuteData dd b) = b := by
  apply Nat.eq_of_testBit_eq
  intro m
  rw [testBit_permuteData]
  by_cases hm : m < 8
  · rw [if_pos hm, testBit_permuteData, if_pos (ddInv_lt m hm), dd_ddInv m hm]
  · rw [if_neg hm]
    symm
    apply Nat.testBit_lt_two_pow
    calc b < 2 ^ 8 := hb
    _ ≤ 2 ^ m := Nat.pow_le_pow_right (by omega) (by omega)

theorem permuteData_inv_rev (b : Nat) (hb : b < 256) :
    permuteData dd (permuteData ddInv b) = b := by
  apply Nat.eq_of_testBit_eq
  intro m
  rw [testBit_permuteData]
  by_cases hm : m < 8
  · rw [if_pos hm, testBit_permuteData, if_pos (dd_lt m hm), ddInv_dd m hm]
  · rw [if_neg hm]
    symm
    apply Nat.testBit_lt_two_pow
    calc b < 2 ^ 8 := hb
    _ ≤ 2 ^ m := Nat.pow_le_pow_right (by omega) (by omega)

theorem unscrambleWith_length (atbl dtbl : List Nat) (src : List Nat) :
    (unscrambleWith atbl dtbl src).length = src.length := by
  simp [unscrambleWith]

example : unscramble [1] = [2] := by decide

example : scrambleAddress aa 1 = 4 := by decide

theorem unscrambleWith_getElem (atbl dtbl : List Nat) (src : List Nat) (i : Nat)
    (h : i < (unscrambleWith atbl dtbl src).length) :
    (unscrambleWith atbl dtbl src)[i] =
      permuteData dtbl (src.getD (scrambleAddress atbl i) 0) := by
  simp only [unscrambleWith, List.getElem_map, List.getElem_range]

/-- Two table pairs that invert each other yield inverse transforms on
byte buffers whose length is a multiple of the bank size. -/
theorem unscrambleWith_inverse (atbl1 dtbl1 atbl2 dtbl2 : List Nat)
    (hb2 : ∀ j, j < 20 → atbl2.getD j 0 < 20)
    (haddr : ∀ i, scrambleAddress atbl1 (scrambleAddress atbl2 i) = i)
    (hdata : ∀ b, b < 256 → permuteData dtbl2 (permuteData dtbl1 b) = b)
    (buf : List Nat) (hlen : buf.length % 2 ^ 20 = 0) (hbytes : ∀ b ∈ buf, b < 256) :
    unscrambleWith atbl2 dtbl2 (unscrambleWith atbl1 dtbl1 buf) = buf := by
  have hmidlen : (unscrambleWith atbl1 dtbl1 buf).length = buf.length :=
    unscrambleWith_length atbl1 dtbl1 buf
  apply List.ext_getElem
  · rw [unscrambleWith_length, hmidlen]
  intro i h1 h2
  have haddrlt : scrambleAddress atbl2 i < (unscrambleWith atbl1 dtbl1 buf).length := by
    rw [hmidlen]
    exact scrambleAddress_lt atbl2 hb2 hlen h2
  have haddr2 : scrambleAddress atbl1 (scrambleAddress atbl2 i) < buf.length := by
    rw [haddr i]
    exact h2
  rw [unscrambleWith_getElem _ _ _ _ h1]
  rw [getD_eq_of_lt haddrlt, List.get_eq_getElem]
  rw [unscrambleWith_getElem _ _ _ _ haddrlt]
  rw [getD_eq_of_lt haddr2, List.get_eq_getElem]
  have hb : buf[scrambleAddress atbl1 (scrambleAddress atbl2 i)] = buf[i] := by
    congr 1
    exact haddr i
  rw [hb]
  exact hdata buf[i] (hbytes buf[i] (List.getElem_mem h2))

/-- Claim C1: for every byte buffer whose length is a multiple of 2^20 (the
bank size), applying `unscramble` and then applying it again with the two
fixed permutation tables (`aa` for the 20 address bits, `dd` for the 8 data
bits) replaced by their inverse permutations reconstructs the original
buffer exactly, and vice versa; hence on such lengths `unscramble` is a
bijection on byte buffers. -/
theorem C1_unscramble_roundtrip (buf : List Nat) (hlen : buf.length % 2 ^ 20 = 0)
    (hbytes : ∀ b ∈ buf, b < 256) :
    unscrambleWith aaInv ddInv (unscramble buf) = buf ∧
    unscramble (unscrambleWith aaInv ddInv buf) = buf :=
  ⟨unscrambleWith_inverse aa dd aaInv ddInv aaInv_lt scrambleAddress_aa_aaInv
      permuteData_inv buf hlen hbytes,
    unscrambleWith_inverse aaInv ddInv aa dd aa_lt scrambleAddress_aaInv_aa
      permuteData_inv_rev buf hlen hbytes⟩

/-- Witness for C1 at a concrete buffer (the empty buffer has length
0, a multiple of the bank size). -/
theorem C1_witness : unscrambleWith aaInv ddInv (unscramble []) = [] :=
  (C1_unscramble_roundtrip [] (by simp) (by simp)).1

/-- Claim C10: for every source length that is a multiple of 2^20 and every
destination index `i < len`, the source address computed by `unscramble`
(the low 20 bits of `i` permuted through `aa` with the bank bits kept) is
itself `< len`, so every source read is in bounds; for the non-multiple
length 2 and index 1 the computed source address is 4, which is out of
bounds. -/
theorem C10_scrambleAddress_bounds :
    (∀ len i, len % 2 ^ 20 = 0 → i < len → scrambleAddress aa i < len) ∧
    scrambleAddress aa 1 = 4 ∧ ¬scrambleAddress aa 1 < 2 := by
  refine ⟨fun len i hlen hi => scrambleAddress_lt aa aa_lt hlen hi, by decide, by decide⟩

/-- Witness for C10 at a concrete length and index. -/
theorem C10_witness : scrambleAddress aa 5 < 2 ^ 20 :=
  C10_scrambleAddress_bounds.1 (2 ^ 20) 5 (by norm_num) (by norm_num)


/-! ### The signature catalog (`EMU_HASHES` in emu.cpp) -/

/-- `EMU_KnownHash` from emu.cpp. The 32-byte SHA-256 digest is modelled
as its 256-bit value; the all-zero placeholder digest is the value 0. -/
structure KnownHash where
  hash : Nat
  romset : Romset
  location : RomLocation
  deriving DecidableEq

/-- The `EMU_HASHES` catalog from emu.cpp, rows in declaration order. -/
def EMU_HASHES : List KnownHash := [
  ⟨0x8a1eb33c7599b746c0c50283e4349a1bb1773b5c0ec0e9661219bf6c067d2042, .MK2, .ROM1⟩,
  ⟨0xa4c9fd821059054c7e7681d61f49ce6f42ed2fe407a7ec1ba0dfdc9722582ce0, .MK2, .ROM2⟩,
  ⟨0xb0b5f865a403f7308b4be8d0ed3ba2ed1c22db881b8a8326769dea222f6431d8, .MK2, .SMROM⟩,
  ⟨0xc6429e21b9b3a02fbd68ef0b2053668433bee0bccd537a71841bc70b8874243b, .MK2, .WAVEROM1⟩,
  ⟨0x5b753f6cef4cfc7fcafe1430fecbb94a739b874e55356246a46abe24097ee491, .MK2, .WAVEROM2⟩,
  ⟨0x8a1eb33c7599b746c0c50283e4349a1bb1773b5c0ec0e9661219bf6c067d2042, .SC155MK2, .ROM1⟩,
  ⟨0xa4c9fd821059054c7e7681d61f49ce6f42ed2fe407a7ec1ba0dfdc9722582ce0, .SC155MK2, .ROM2⟩,
  ⟨0xb0b5f865a403f7308b4be8d0ed3ba2ed1c22db881b8a8326769dea222f6431d8, .SC155MK2, .SMROM⟩,
  ⟨0xc6429e21b9b3a02fbd68ef0b2053668433bee0bccd537a71841bc70b8874243b, .SC155MK2, .WAVEROM1⟩,
  ⟨0x5b753f6cef4cfc7fcafe1430fecbb94a739b874e55356246a46abe24097ee491, .SC155MK2, .WAVEROM2⟩,
  ⟨0x8a1eb33c7599b746c0c50283e4349a1bb1773b5c0ec0e9661219bf6c067d2042, .ST, .ROM1⟩,
  ⟨0x0000000000000000000000000000000000000000000000000000000000000000, .ST, .ROM2⟩,
  ⟨0xb0b5f865a403f7308b4be8d0ed3ba2ed1c22db881b8a8326769dea222f6431d8, .ST, .SMROM⟩,
  ⟨0xc6429e21b9b3a02fbd68ef0b2053668433bee0bccd537a71841bc70b8874243b, .ST, .WAVEROM1⟩,
  ⟨0x5b753f6cef4cfc7fcafe1430fecbb94a739b874e55356246a46abe24097ee491, .ST, .WAVEROM2⟩,
  ⟨0x7e1bacd1d7c62ed66e465ba05597dcd60dfc13fc23de0287fdbce6cf906c6544, .MK1, .ROM1⟩,
  ⟨0xeffc6132d68f7e300aaef915ccdd08aba93606c22d23e580daf9ea6617913af1, .MK1, .ROM2⟩,
  ⟨0x5655509a531804f97ea2d7ef05b8fec20ebf46216b389a84c44169257a4d2007, .MK1, .WAVEROM1⟩,
  ⟨0xc655b159792d999b90df9e4fa782cf56411ba1eaa0bb3ac2bdaf09e1391006b1, .MK1, .WAVEROM2⟩,
  ⟨0x334b2d16be3c2362210fdbec1c866ad58badeb0f84fd9bf5d0ac599baf077cc2, .MK1, .WAVEROM3⟩,
  ⟨0x0000000000000000000000000000000000000000000000000000000000000000, .CM300, .ROM1⟩,
  ⟨0x0283d32e6993a0265710c4206463deb937b0c3a4819b69f471a0eca5865719f9, .CM300, .ROM2⟩,
  ⟨0x40c093cbfb4441a5c884e623f882a80b96b2527f9fd431e074398d206c0f073d, .CM300, .WAVEROM1⟩,
  ⟨0x9bbbcac747bd6f7a2693f4ef10633db8ab626f17d3d9c47c83c3839d4dd2f613, .CM300, .WAVEROM2⟩,
  ⟨0x5b753f6cef4cfc7fcafe1430fecbb94a739b874e55356246a46abe24097ee491, .CM300, .WAVEROM3⟩,
  ⟨0x0000000000000000000000000000000000000000000000000000000000000000, .CM300, .ROM1⟩,
  ⟨0xfef1acb1969525d66238be5e7811108919b07a4df5fbab656ad084966373483f, .CM300, .ROM2⟩,
  ⟨0x40c093cbfb4441a5c884e623f882a80b96b2527f9fd431e074398d206c0f073d, .CM300, .WAVEROM1⟩,
  ⟨0x9bbbcac747bd6f7a2693f4ef10633db8ab626f17d3d9c47c83c3839d4dd2f613, .CM300, .WAVEROM2⟩,
  ⟨0x5b753f6cef4cfc7fcafe1430fecbb94a739b874e55356246a46abe24097ee491, .CM300, .WAVEROM3⟩,
  ⟨0x0000000000000000000000000000000000000000000000000000000000000000, .CM300, .ROM1⟩,
  ⟨0xf89442734fdebacae87c7707c01b2d7fdbf5940abae738987aee912d34b5882e, .CM300, .ROM2⟩,
  ⟨0x40c093cbfb4441a5c884e623f882a80b96b2527f9fd431e074398d206c0f073d, .CM300, .WAVEROM1⟩,
  ⟨0x9bbbcac747bd6f7a2693f4ef10633db8ab626f17d3d9c47c83c3839d4dd2f613, .CM300, .WAVEROM2⟩,
  ⟨0x5b753f6cef4cfc7fcafe1430fecbb94a739b874e55356246a46abe24097ee491, .CM300, .WAVEROM3⟩,
  ⟨0xaabfcf883b29060198566440205f2fae1ce689043ea0fc7074842aaa4fd4823e, .JV880, .ROM1⟩,
  ⟨0xed437f1bc75cc558f174707bcfeb45d5e03483efd9bfd0a382ca57c0edb2a40c, .JV880, .ROM2⟩,
  ⟨0xaa3101a76d57992246efeda282a2cb0c0f8fdb441c2eed2aa0b0fad4d81f3ad4, .JV880, .WAVEROM1⟩,
  ⟨0xa7b50bb47734ee9117fa16df1f257990a9a1a0b5ed420337ae4310eb80df75c8, .JV880, .WAVEROM2⟩,
  ⟨0x0000000000000000000000000000000000000000000000000000000000000000, .JV880, .WAVEROM_CARD⟩,
  ⟨0x0000000000000000000000000000000000000000000000000000000000000000, .JV880, .WAVEROM_EXP⟩,
  ⟨0x0000000000000000000000000000000000000000000000000000000000000000, .SCB55, .ROM1⟩,
  ⟨0x0000000000000000000000000000000000000000000000000000000000000000, .SCB55, .ROM2⟩,
  ⟨0xc6429e21b9b3a02fbd68ef0b2053668433bee0bccd537a71841bc70b8874243b, .SCB55, .WAVEROM1⟩,
  ⟨0x5b753f6cef4cfc7fcafe1430fecbb94a739b874e55356246a46abe24097ee491, .SCB55, .WAVEROM3⟩,
  ⟨0x0000000000000000000000000000000000000000000000000000000000000000, .RLP3237, .ROM1⟩,
  ⟨0x0000000000000000000000000000000000000000000000000000000000000000, .RLP3237, .ROM2⟩,
  ⟨0x0000000000000000000000000000000000000000000000000000000000000000, .RLP3237, .WAVEROM1⟩,
  ⟨0x24a65c97cdbaa847d6f59193523ce63c73394b4b693a6517ee79441f2fb8a3ee, .SC155, .ROM1⟩,
  ⟨0xceb7b9d3d9d264efe5dc3ba992b94f3be35eb6d0451abc574b6f6b5dc3db237b, .SC155, .ROM2⟩,
  ⟨0x5655509a531804f97ea2d7ef05b8fec20ebf46216b389a84c44169257a4d2007, .SC155, .WAVEROM1⟩,
  ⟨0xc655b159792d999b90df9e4fa782cf56411ba1eaa0bb3ac2bdaf09e1391006b1, .SC155, .WAVEROM2⟩,
  ⟨0x334b2d16be3c2362210fdbec1c866ad58badeb0f84fd9bf5d0ac599baf077cc2, .SC155, .WAVEROM3⟩,
  ⟨0x24a65c97cdbaa847d6f59193523ce63c73394b4b693a6517ee79441f2fb8a3ee, .SC155, .ROM1⟩,
  ⟨0x0000000000000000000000000000000000000000000000000000000000000000, .SC155, .ROM2⟩,
  ⟨0x5655509a531804f97ea2d7ef05b8fec20ebf46216b389a84c44169257a4d2007, .SC155, .WAVEROM1⟩,
  ⟨0xc655b159792d999b90df9e4fa782cf56411ba1eaa0bb3ac2bdaf09e1391006b1, .SC155, .WAVEROM2⟩,
  ⟨0x334b2d16be3c2362210fdbec1c866ad58badeb0f84fd9bf5d0ac599baf077cc2, .SC155, .WAVEROM3⟩]

/-! ### The hash detector (`EMU_DetectRomsetsByHash` in emu.cpp) -/

/-- One directory entry as seen by the detector: its path, whether it is a
regular file, its stat size, and its content. -/
structure ScanFile where
  path : String
  is_file : Bool
  file_size : Nat
  content : List Nat

/-- The body of the catalog loop of `EMU_DetectRomsetsByHash` for one
catalog row. The state is the table under construction together with the
shared read buffer (mutated by this loop in the C++ code). When the row's
digest matches and the slot is unpopulated, the file path is recorded; if
additionally the slot's location is in the `desired` set, data is
materialized: for wave locations the code calls
`unscramble(rom_data.data(), buffer.data(), buffer.size())` on the freshly
resized (zero-filled) `rom_data` — that is, with `rom_data` as the source
and the file buffer as the destination — and for other locations the
buffer is moved into `rom_data`, leaving the buffer empty. -/
def desiredAt (desired : Option (RomLocation → Bool)) (loc : RomLocation) : Bool :=
  match desired with
  | some d => d loc
  | none => false

def hashMatchRow (desired : Option (RomLocation → Bool)) (path : String) (digest : Nat)
    (st : AllRomsetInfo × List Nat) (known : KnownHash) : AllRomsetInfo × List Nat :=
  if known.hash = digest ∧ (st.1.romsets known.romset).HasRom known.location = false then
    if desiredAt desired known.location then
      if EMU_IsWaverom known.location then
        ((st.1.setPath known.romset known.location path).setData known.romset known.location
            (List.replicate st.2.length 0),
          unscrambleWith aa dd (List.replicate st.2.length 0))
      else
        ((st.1.setPath known.romset known.location path).setData known.romset known.location
            st.2, [])
    else
      (st.1.setPath known.romset known.location path, st.2)
  else st

/-- The per-file step of `EMU_DetectRomsetsByHash`: skip non-regular files
and files larger than 4 MiB; otherwise read the file into the buffer,
digest it, and run the catalog loop. -/
def hashProcessFile (desired : Option (RomLocation → Bool)) (hashFn : List Nat → Nat)
    (st : AllRomsetInfo × List Nat) (f : ScanFile) : AllRomsetInfo × List Nat :=
  if f.is_file = false then st
  else if f.file_size > 4 * 1024 * 1024 then st
  else
    EMU_HASHES.foldl (hashMatchRow desired f.path (hashFn f.content)) (st.1, f.content)

/-- `EMU_DetectRomsetsByHash` from emu.cpp over an explicit directory
listing, with the (external) SHA-256 digest supplied as an oracle
`hashFn`. -/
def EMU_DetectRomsetsByHash (files : List ScanFile) (hashFn : List Nat → Nat)
    (all : AllRomsetInfo) (desired : Option (RomLocation → Bool)) : AllRomsetInfo :=
  (files.foldl (hashProcessFile desired hashFn) (all, [])).1

/-- The detection filter built by `LoadRomset` in rom_loader.cpp:
`EMU_RomMapLocationSet desired{}; desired[(size_t)result.romset] = true;` —
an array of 8 booleans indexed by location ordinal, in which the bit at
the requested ROMSET's ordinal is set. (For romset ordinal 8, SC155MK2,
the C++ write is out of bounds of the 8-element array; this model then
leaves the filter empty.) -/
def loadRomsetDesiredFilter (rs : Romset) : RomLocation → Bool :=
  fun loc => decide (loc.ord = rs.ord)

/-- The detection phase of `LoadRomset` (rom_loader.cpp) for the case where
a romset name was requested and the hash detector is configured: parse the
name (`none` models the InvalidRomsetName failure) and run the hash
detector with the single-romset filter built as above. -/
def LoadRomsetHashDetect (files : List ScanFile) (hashFn : List Nat → Nat)
    (all : AllRomsetInfo) (desired_romset : String) : Option (Romset × AllRomsetInfo) :=
  match EMU_ParseRomsetName desired_romset with
  | none => none
  | some rs =>
    some (rs, EMU_DetectRomsetsByHash files hashFn all (some (loadRomsetDesiredFilter rs)))

/-! ### Field access lemmas for table updates -/

theorem setPath_paths (all : AllRomsetInfo) (r : Romset) (l : RomLocation) (p : String)
    (rs : Romset) (loc : RomLocation) :
    ((all.setPath r l p).romsets rs).rom_paths loc =
      if rs = r ∧ loc = l then p else (all.romsets rs).rom_paths loc := by
  simp only [AllRomsetInfo.setPath, AllRomsetInfo.modify, RomsetInfo.setPath]
  by_cases h1 : rs = r <;> by_cases h2 : loc = l <;> simp [h1, h2]

theorem setPath_data (all : AllRomsetInfo) (r : Romset) (l : RomLocation) (p : String)
    (rs : Romset) (loc : RomLocation) :
    ((all.setPath r l p).romsets rs).rom_data loc = (all.romsets rs).rom_data loc := by
  simp only [AllRomsetInfo.setPath, AllRomsetInfo.modify, RomsetInfo.setPath]
  by_cases h1 : rs = r <;> simp [h1]

theorem setData_data (all : AllRomsetInfo) (r : Romset) (l : RomLocation) (d : List Nat)
    (rs : Romset) (loc : RomLocation) :
    ((all.setData r l d).romsets rs).rom_data loc =
      if rs = r ∧ loc = l then d else (all.romsets rs).rom_data loc := by
  simp only [AllRomsetInfo.setData, AllRomsetInfo.modify, RomsetInfo.setData]
  by_cases h1 : rs = r <;> by_cases h2 : loc = l <;> simp [h1, h2]

theorem setData_paths (all : AllRomsetInfo) (r : Romset) (l : RomLocation) (d : List Nat)
    (rs : Romset) (loc : RomLocation) :
    ((all.setData r l d).romsets rs).rom_paths loc = (all.romsets rs).rom_paths loc := by
  simp only [AllRomsetInfo.setData, AllRomsetInfo.modify, RomsetInfo.setData]
  by_cases h1 : rs = r <;> simp [h1]

/-! ### The no-clobber invariant of the hash detector -/

theorem hashMatchRow_frame (desired : Option (RomLocation → Bool)) (path : String)
    (digest : Nat) (st : AllRomsetInfo × List Nat) (known : KnownHash) (rs : Romset)
    (loc : RomLocation) (h : known.romset ≠ rs ∨ known.location ≠ loc) :
    (((hashMatchRow desired path digest st known).1.romsets rs).rom_paths loc
        = (st.1.romsets rs).rom_paths loc) ∧
    (((hashMatchRow desired path digest st known).1.romsets rs).rom_data loc
        = (st.1.romsets rs).rom_data loc) := by
  have hcond : ¬(rs = known.romset ∧ loc = known.location) := by
    rintro ⟨h1, h2⟩
    rcases h with h3 | h3
    · exact h3 h1.symm
    · exact h3 h2.symm
  unfold hashMatchRow
  split
  · by_cases hd : desiredAt desired known.location = true
    · by_cases hw : EMU_IsWaverom known.location = true
      · rw [if_pos hd, if_pos hw]
        constructor
        · rw [setData_paths, setPath_paths, if_neg hcond]
        · rw [setData_data, if_neg hcond, setPath_data]
      · rw [if_pos hd, if_neg hw]
        constructor
        · rw [setData_paths, setPath_paths, if_neg hcond]
        · rw [setData_data, if_neg hcond, setPath_data]
    · rw [if_neg hd]
      constructor
      · rw [setPath_paths, if_neg hcond]
      · rw [setPath_data]
  · exact ⟨rfl, rfl⟩

theorem hashMatchRow_no_clobber (desired : Option (RomLocation → Bool)) (path : String)
    (digest : Nat) (st : AllRomsetInfo × List Nat) (known : KnownHash) (rs : Romset)
    (loc : RomLocation) (h : (st.1.romsets rs).HasRom loc = true) :
    (((hashMatchRow desired path digest st known).1.romsets rs).rom_paths loc
        = (st.1.romsets rs).rom_paths loc) ∧
    (((hashMatchRow desired path digest st known).1.romsets rs).rom_data loc
        = (st.1.romsets rs).rom_data loc) := by
  by_cases hsame : known.romset = rs ∧ known.location = loc
  · obtain ⟨e1, e2⟩ := hsame
    unfold hashMatchRow
    rw [if_neg]
    · exact ⟨rfl, rfl⟩
    · rintro ⟨-, hfalse⟩
      rw [e1, e2, h] at hfalse
      cases hfalse
  · exact hashMatchRow_frame desired path digest st known rs loc (not_and_or.mp hsame)

theorem hashRows_no_clobber (desired : Option (RomLocation → Bool)) (path : String)
    (digest : Nat) :
    ∀ (rows : List KnownHash) (st : AllRomsetInfo × List Nat) (rs : Romset)
      (loc : RomLocation), (st.1.romsets rs).HasRom loc = true →
    (((rows.foldl (hashMatchRow desired path digest) st).1.romsets rs).rom_paths loc
        = (st.1.romsets rs).rom_paths loc) ∧
    (((rows.foldl (hashMatchRow desired path digest) st).1.romsets rs).rom_data loc
        = (st.1.romsets rs).rom_data loc)
  | [], _, _, _, _ => ⟨rfl, rfl⟩
  | known :: rows, st, rs, loc, h => by
    simp only [List.foldl_cons]
    have hstep := hashMatchRow_no_clobber desired path digest st known rs loc h
    have hnext : ((hashMatchRow desired path digest st known).1.romsets rs).HasRom loc
        = true := by
      unfold RomsetInfo.HasRom at h ⊢
      rw [hstep.1, hstep.2]
      exact h
    have hrec := hashRows_no_clobber desired path digest rows _ rs loc hnext
    exact ⟨hrec.1.trans hstep.1, hrec.2.trans hstep.2⟩

theorem hashProcessFile_no_clobber (desired : Option (RomLocation → Bool))
    (hashFn : List Nat → Nat) (st : AllRomsetInfo × List Nat) (f : ScanFile) (rs : Romset)
    (loc : RomLocation) (h : (st.1.romsets rs).HasRom loc = true) :
    (((hashProcessFile desired hashFn st f).1.romsets rs).rom_paths loc
        = (st.1.romsets rs).rom_paths loc) ∧
    (((hashProcessFile desired hashFn st f).1.romsets rs).rom_data loc
        = (st.1.romsets rs).rom_data loc) := by
  unfold hashProcessFile
  split
  · exact ⟨rfl, rfl⟩
  split
  · exact ⟨rfl, rfl⟩
  · exact hashRows_no_clobber desired f.path (hashFn f.content) EMU_HASHES (st.1, f.content)
      rs loc h

theorem hashFiles_no_clobber (desired : Option (RomLocation → Bool))
    (hashFn : List Nat → Nat) :
    ∀ (files : List ScanFile) (st : AllRomsetInfo × List Nat) (rs : Romset)
      (loc : RomLocation), (st.1.romsets rs).HasRom loc = true →
    (((files.foldl (hashProcessFile desired hashFn) st).1.romsets rs).rom_paths loc
        = (st.1.romsets rs).rom_paths loc) ∧
    (((files.foldl (hashProcessFile desired hashFn) st).1.romsets rs).rom_data loc
        = (st.1.romsets rs).rom_data loc)
  | [], _, _, _, _ => ⟨rfl, rfl⟩
  | f :: files, st, rs, loc, h => by
    simp only [List.foldl_cons]
    have hstep := hashProcessFile_no_clobber desired hashFn st f rs loc h
    have hnext : ((hashProcessFile desired hashFn st f).1.romsets rs).HasRom loc = true := by
      unfold RomsetInfo.HasRom at h ⊢
      rw [hstep.1, hstep.2]
      exact h
    have hrec := hashFiles_no_clobber desired hashFn files _ rs loc hnext
    exact ⟨hrec.1.trans hstep.1, hrec.2.trans hstep.2⟩

/-- Claim C4: a (romset, slot) that is populated (non-empty path or
non-empty data, i.e. `HasRom`) before `EMU_DetectRomsetsByHash` runs keeps
both its path and its data unchanged through the call, regardless of which
files are scanned and which digests match. -/
theorem C4_detect_no_clobber (files : List ScanFile) (hashFn : List Nat → Nat)
    (all : AllRomsetInfo) (desired : Option (RomLocation → Bool)) (rs : Romset)
    (loc : RomLocation) (h : (all.romsets rs).HasRom loc = true) :
    (((EMU_DetectRomsetsByHash files hashFn all desired).romsets rs).rom_paths loc
        = (all.romsets rs).rom_paths loc) ∧
    (((EMU_DetectRomsetsByHash files hashFn all desired).romsets rs).rom_data loc
        = (all.romsets rs).rom_data loc) :=
  hashFiles_no_clobber desired hashFn files (all, []) rs loc h

/-- A table with (MK2, ROM1) already populated by a path. -/
def preSeededAll : AllRomsetInfo :=
  emptyAllRomsetInfo.setPath .MK2 .ROM1 "old.bin"

/-- Witness for C4: with (MK2, ROM1) pre-populated with path "old.bin", a
scanned file matching the (MK2, ROM1) digest does not overwrite it. -/
theorem C4_witness :
    (((EMU_DetectRomsetsByHash [⟨"new.bin", true, 1, [7]⟩]
        (fun _ => 0x8a1eb33c7599b746c0c50283e4349a1bb1773b5c0ec0e9661219bf6c067d2042)
        preSeededAll none).romsets .MK2).rom_paths .ROM1
      = ((preSeededAll.romsets .MK2).rom_paths .ROM1)) ∧
    (((EMU_DetectRomsetsByHash [⟨"new.bin", true, 1, [7]⟩]
        (fun _ => 0x8a1eb33c7599b746c0c50283e4349a1bb1773b5c0ec0e9661219bf6c067d2042)
        preSeededAll none).romsets .MK2).rom_data .ROM1
      = ((preSeededAll.romsets .MK2).rom_data .ROM1)) :=
  C4_detect_no_clobber [⟨"new.bin", true, 1, [7]⟩]
    (fun _ => 0x8a1eb33c7599b746c0c50283e4349a1bb1773b5c0ec0e9661219bf6c067d2042)
    preSeededAll none .MK2 .ROM1 (by decide)

/-! ### The 4 MiB size ceiling of the hash detector -/

theorem hashProcessFile_skip_large (desired : Option (RomLocation → Bool))
    (hashFn : List Nat → Nat) (st : AllRomsetInfo × List Nat) (f : ScanFile)
    (h : f.file_size > 4 * 1024 * 1024) :
    hashProcessFile desired hashFn st f = st := by
  unfold hashProcessFile
  by_cases hf : f.is_file = false
  · rw [if_pos hf]
  · rw [if_neg hf, if_pos h]

theorem hashFiles_filter_large (desired : Option (RomLocation → Bool))
    (hashFn : List Nat → Nat) :
    ∀ (files : List ScanFile) (st : AllRomsetInfo × List Nat),
      files.foldl (hashProcessFile desired hashFn) st =
        (files.filter (fun f => decide (f.file_size ≤ 4 * 1024 * 1024))).foldl
          (hashProcessFile desired hashFn) st
  | [], _ => rfl
  | f :: files, st => by
    by_cases h : f.file_size ≤ 4 * 1024 * 1024
    · have hfil : List.filter (fun g => decide (g.file_size ≤ 4 * 1024 * 1024)) (f :: files) =
          f :: List.filter (fun g => decide (g.file_size ≤ 4 * 1024 * 1024)) files := by
        simp [List.filter_cons, h]
      rw [hfil, List.foldl_cons, List.foldl_cons]
      exact hashFiles_filter_large desired hashFn files _
    · have hfil : List.filter (fun g => decide (g.file_size ≤ 4 * 1024 * 1024)) (f :: files) =
          List.filter (fun g => decide (g.file_size ≤ 4 * 1024 * 1024)) files := by
        simp [List.filter_cons, h]
      rw [hfil, List.foldl_cons, hashProcessFile_skip_large desired hashFn st f (by omega)]
      exact hashFiles_filter_large desired hashFn files st

theorem hashRows_assign (desired : Option (RomLocation → Bool)) (path : String)
    (digest : Nat) (hpath : path ≠ "") :
    ∀ (rows : List KnownHash) (st : AllRomsetInfo × List Nat) (known : KnownHash),
      known ∈ rows → known.hash = digest →
      (st.1.romsets known.romset).HasRom known.location = false →
      ((rows.foldl (hashMatchRow desired path digest) st).1.romsets known.romset).rom_paths
        known.location = path
  | [], _, _, hmem, _, _ => absurd hmem (List.not_mem_nil _)
  | k :: rows, st, known, hmem, hdig, hnotrom => by
    simp only [List.foldl_cons]
    by_cases hsame : k.romset = known.romset ∧ k.location = known.location
    · by_cases hk : k.hash = digest
      · have e : known.romset = k.romset ∧ known.location = k.location :=
          ⟨hsame.1.symm, hsame.2.symm⟩
        have hfired : ((hashMatchRow desired path digest st k).1.romsets
            known.romset).rom_paths known.location = path := by
          unfold hashMatchRow
          rw [if_pos ⟨hk, by rw [hsame.1, hsame.2]; exact hnotrom⟩]
          by_cases hd : desiredAt desired k.location = true
          · by_cases hw : EMU_IsWaverom k.location = true
            · rw [if_pos hd, if_pos hw, setData_paths, setPath_paths, if_pos e]
            · rw [if_pos hd, if_neg hw, setData_paths, setPath_paths, if_pos e]
          · rw [if_neg hd, setPath_paths, if_pos e]
        have hhas : ((hashMatchRow desired path digest st k).1.romsets
            known.romset).HasRom known.location = true := by
          unfold RomsetInfo.HasRom
          rw [hfired]
          simp [hpath]
        exact ((hashRows_no_clobber desired path digest rows _ known.romset known.location
          hhas).1).trans hfired
      · have hid : hashMatchRow desired path digest st k = st := by
          unfold hashMatchRow
          rw [if_neg]
          rintro ⟨h1, -⟩
          exact hk h1
        rw [hid]
        have hmem2 : known ∈ rows := by
          rcases List.mem_cons.mp hmem with he | hm
          · exact absurd (he ▸ hdig) hk
          · exact hm
        exact hashRows_assign desired path digest hpath rows st known hmem2 hdig hnotrom
    · have hframe := hashMatchRow_frame desired path digest st k known.romset known.location
        (not_and_or.mp hsame)
      have hmem2 : known ∈ rows := by
        rcases List.mem_cons.mp hmem with he | hm
        · exact absurd ⟨congrArg KnownHash.romset he.symm, congrArg KnownHash.location he.symm⟩
            hsame
        · exact hm
      have hnotrom2 : ((hashMatchRow desired path digest st k).1.romsets
          known.romset).HasRom known.location = false := by
        unfold RomsetInfo.HasRom at hnotrom ⊢
        rw [hframe.1, hframe.2]
        exact hnotrom
      exact hashRows_assign desired path digest hpath rows _ known hmem2 hdig hnotrom2

/-- Claim C9: first conjunct — `EMU_DetectRomsetsByHash` behaves exactly as
if every file larger than 4 MiB (4*1024*1024 bytes) were absent from the
directory, so such files never contribute a path or data to any slot.
Second conjunct — a regular file of size at most 4 MiB whose digest matches
a catalog row for an unpopulated slot is considered and has its path
assigned to that slot. -/
theorem C9_size_ceiling :
    (∀ (files : List ScanFile) (hashFn : List Nat → Nat) (all : AllRomsetInfo)
        (desired : Option (RomLocation → Bool)),
      EMU_DetectRomsetsByHash files hashFn all desired =
        EMU_DetectRomsetsByHash
          (files.filter (fun f => decide (f.file_size ≤ 4 * 1024 * 1024))) hashFn
          all desired) ∧
    (∀ (desired : Option (RomLocation → Bool)) (hashFn : List Nat → Nat)
        (st : AllRomsetInfo × List Nat) (f : ScanFile) (known : KnownHash),
      known ∈ EMU_HASHES → known.hash = hashFn f.content → f.is_file = true →
      f.file_size ≤ 4 * 1024 * 1024 → f.path ≠ "" →
      (st.1.romsets known.romset).HasRom known.location = false →
      ((hashProcessFile desired hashFn st f).1.romsets known.romset).rom_paths
        known.location = f.path) := by
  constructor
  · intro files hashFn all desired
    unfold EMU_DetectRomsetsByHash
    rw [hashFiles_filter_large desired hashFn files (all, [])]
  · intro desired hashFn st f known hmem hdig hfile hsize hpath hnotrom
    unfold hashProcessFile
    rw [if_neg (by simp [hfile]), if_neg (by omega)]
    exact hashRows_assign desired f.path (hashFn f.content) hpath EMU_HASHES
      (st.1, f.content) known hmem hdig hnotrom

/-- Witness for C9: a 5 MB file is ignored by the detector, and a small
file matching the (MK2, ROM1) digest on an empty table gets its path
assigned there. -/
theorem C9_witness :
    (EMU_DetectRomsetsByHash [⟨"big.bin", true, 5000000, [1]⟩] (fun _ => 0) emptyAllRomsetInfo
        none =
      EMU_DetectRomsetsByHash
        (List.filter (fun f => decide (f.file_size ≤ 4 * 1024 * 1024))
          [⟨"big.bin", true, 5000000, [1]⟩]) (fun _ => 0) emptyAllRomsetInfo none) ∧
    ((hashProcessFile none
        (fun _ => 0x8a1eb33c7599b746c0c50283e4349a1bb1773b5c0ec0e9661219bf6c067d2042)
        (emptyAllRomsetInfo, []) ⟨"r.bin", true, 1, [7]⟩).1.romsets .MK2).rom_paths .ROM1
      = "r.bin" :=
  ⟨C9_size_ceiling.1 [⟨"big.bin", true, 5000000, [1]⟩] (fun _ => 0) emptyAllRomsetInfo none,
    C9_size_ceiling.2 none
      (fun _ => 0x8a1eb33c7599b746c0c50283e4349a1bb1773b5c0ec0e9661219bf6c067d2042)
      (emptyAllRomsetInfo, []) ⟨"r.bin", true, 1, [7]⟩
      ⟨0x8a1eb33c7599b746c0c50283e4349a1bb1773b5c0ec0e9661219bf6c067d2042, .MK2, .ROM1⟩
      (by decide) rfl rfl (by decide) (by decide) (by decide)⟩

/-- Counterexample to Claim C2: a one-byte file `[1]` whose digest matches
the (MK2, WAVEROM1) catalog row, with WAVEROM1 in the desired set, is
materialized as `rom_data = [0]` (the descrambling call is made with the
zero-filled `rom_data` as source and the file buffer as destination), while
the claim demands the descrambled file bytes `unscramble [1] = [2]`. -/
theorem C2_counterexample :
    ((EMU_DetectRomsetsByHash
        [⟨"w.bin", true, 1, [1]⟩]
        (fun _ => 0xc6429e21b9b3a02fbd68ef0b2053668433bee0bccd537a71841bc70b8874243b)
        emptyAllRomsetInfo
        (some (fun loc => decide (loc = .WAVEROM1)))).romsets .MK2).rom_data .WAVEROM1 = [0]
    ∧ unscramble [1] = [2] ∧ ([0] : List Nat) ≠ [2] := by
  refine ⟨by decide, by decide, by decide⟩

/-- Counterexample to Claim C3: requesting romset "st" builds the filter
bit at index 1 (ST's ordinal), which the hash detector reads as location
ROM2. First conjunct: a file matching the (MK2, ROM2) digest is then
eagerly materialized into MK2 — a romset other than the requested one.
Second conjunct: a file matching the requested romset's own (ST, ROM1) row
gets only a path and no data, because location ROM1 is not in the
filter. -/
theorem C3_counterexample :
    ((LoadRomsetHashDetect [⟨"r.bin", true, 1, [171]⟩]
        (fun _ => 0xa4c9fd821059054c7e7681d61f49ce6f42ed2fe407a7ec1ba0dfdc9722582ce0)
        emptyAllRomsetInfo "st").map
      (fun p => (p.2.romsets .MK2).rom_data .ROM2)) = some [171] ∧
    ((LoadRomsetHashDetect [⟨"r.bin", true, 1, [171]⟩]
        (fun _ => 0x8a1eb33c7599b746c0c50283e4349a1bb1773b5c0ec0e9661219bf6c067d2042)
        emptyAllRomsetInfo "st").map
      (fun p => ((p.2.romsets .ST).rom_paths .ROM1, (p.2.romsets .ST).rom_data .ROM1)))
      = some ("r.bin", []) := by
  refine ⟨by decide, by decide⟩

/-! ### Completeness (`EMU_IsCompleteRomset`, `EMU_PickCompleteRomset`) -/

/-- The body of the catalog loop of `EMU_IsCompleteRomset` for one row:
skip rows of other romsets; an unpopulated non-optional slot forces the
verdict false and marks Missing; a populated slot marks Present. -/
def completeStep (all : AllRomsetInfo) (romset : Romset)
    (acc : Bool × (RomLocation → RomCompletionStatus)) (known : KnownHash) :
    Bool × (RomLocation → RomCompletionStatus) :=
  if known.romset ≠ romset then acc
  else if (all.romsets romset).HasRom known.location = false ∧
      EMU_IsOptionalRom romset known.location = false then
    (false, fun l => if l = known.location then .Missing else acc.2 l)
  else if (all.romsets romset).HasRom known.location = true then
    (acc.1, fun l => if l = known.location then .Present else acc.2 l)
  else acc

/-- `EMU_IsCompleteRomset` from emu.cpp, with the per-slot status always
computed (the C++ status out-parameter is optional; when null only the
boolean verdict is used). The status array is pre-filled with Unused. -/
def EMU_IsCompleteRomset (all : AllRomsetInfo) (romset : Romset) :
    Bool × (RomLocation → RomCompletionStatus) :=
  EMU_HASHES.foldl (completeStep all romset) (true, fun _ => .Unused)

/-- `EMU_PickCompleteRomset` from emu.cpp: scan romset ordinals 0..8 in
order, returning the first complete romset (`none` models returning
false with `out_romset` unassigned). -/
def EMU_PickCompleteRomset (all : AllRomsetInfo) : Option Romset :=
  allRomsets.find? (fun rs => (EMU_IsCompleteRomset all rs).1)

theorem listAll_congr {α : Type} {p q : α → Bool} :
    ∀ {l : List α}, (∀ x ∈ l, p x = q x) → l.all p = l.all q
  | [], _ => rfl
  | x :: l, h => by
    simp only [List.all_cons]
    rw [h x (List.mem_cons_self x l), listAll_congr (fun y hy => h y (List.mem_cons_of_mem x hy))]

theorem completeStep_fst (all : AllRomsetInfo) (romset : Romset)
    (acc : Bool × (RomLocation → RomCompletionStatus)) (known : KnownHash) :
    (completeStep all romset acc known).1 =
      (acc.1 && (decide (known.romset ≠ romset) ||
        (all.romsets romset).HasRom known.location ||
        EMU_IsOptionalRom romset known.location)) := by
  unfold completeStep
  by_cases h1 : known.romset ≠ romset
  · rw [if_pos h1]
    simp [h1]
  · rw [if_neg h1]
    by_cases h2 : (all.romsets romset).HasRom known.location = false ∧
        EMU_IsOptionalRom romset known.location = false
    · rw [if_pos h2]
      simp [h1, h2.1, h2.2]
    · rw [if_neg h2]
      by_cases h3 : (all.romsets romset).HasRom known.location = true
      · rw [if_pos h3]
        simp [h3]
      · rw [if_neg h3]
        have h4 : (all.romsets romset).HasRom known.location = false := by
          cases hx : (all.romsets romset).HasRom known.location
          · rfl
          · exact absurd hx h3
        have h5 : EMU_IsOptionalRom romset known.location = true := by
          cases hx : EMU_IsOptionalRom romset known.location
          · exact absurd ⟨h4, hx⟩ h2
          · rfl
        simp [h4, h5]

theorem completeFold_fst (all : AllRomsetInfo) (romset : Romset) :
    ∀ (rows : List KnownHash) (acc : Bool × (RomLocation → RomCompletionStatus)),
      (rows.foldl (completeStep all romset) acc).1 =
        (acc.1 && rows.all (fun known => decide (known.romset ≠ romset) ||
          (all.romsets romset).HasRom known.location ||
          EMU_IsOptionalRom romset known.location))
  | [], acc => by simp
  | known :: rows, acc => by
    simp only [List.foldl_cons, List.all_cons]
    rw [completeFold_fst all romset rows _, completeStep_fst, Bool.and_assoc]

theorem completeStep_snd (all : AllRomsetInfo) (romset : Romset)
    (acc : Bool × (RomLocation → RomCompletionStatus)) (known : KnownHash)
    (loc : RomLocation) :
    (completeStep all romset acc known).2 loc =
      if known.romset = romset ∧ known.location = loc then
        (if (all.romsets romset).HasRom loc = true then .Present
          else if EMU_IsOptionalRom romset loc = true then acc.2 loc
          else .Missing)
      else acc.2 loc := by
  unfold completeStep
  by_cases h1 : known.romset = romset
  · by_cases hl : known.location = loc
    · subst hl
      subst h1
      cases h3 : (all.romsets known.romset).HasRom known.location
      · cases h5 : EMU_IsOptionalRom known.romset known.location
        · simp [h3, h5]
        · simp [h3, h5]
      · simp [h3]
    · have hl2 : ¬(loc = known.location) := fun hx => hl hx.symm
      rw [if_neg (not_not_intro h1),
        if_neg (fun hc : known.romset = romset ∧ known.location = loc => hl hc.2)]
      split
      · simp [hl2]
      · split
        · simp [hl2]
        · rfl
  · simp [h1]

theorem completeFold_snd (all : AllRomsetInfo) (romset : Romset) (loc : RomLocation) :
    ∀ (rows : List KnownHash) (acc : Bool × (RomLocation → RomCompletionStatus)),
      (rows.foldl (completeStep all romset) acc).2 loc =
        if (rows.any (fun known => decide (known.romset = romset) &&
              decide (known.location = loc)) &&
            ((all.romsets romset).HasRom loc || !EMU_IsOptionalRom romset loc)) = true then
          (if (all.romsets romset).HasRom loc = true then .Present else .Missing)
        else acc.2 loc
  | [], acc => by simp
  | known :: rows, acc => by
    simp only [List.foldl_cons, List.any_cons]
    rw [completeFold_snd all romset loc rows _, completeStep_snd]
    by_cases hk : known.romset = romset ∧ known.location = loc
    · have hk1 : decide (known.romset = romset) = true := decide_eq_true hk.1
      have hk2 : decide (known.location = loc) = true := decide_eq_true hk.2
      by_cases hr : (all.romsets romset).HasRom loc = true
      · simp [hk, hk1, hk2, hr]
      · have hr4 : (all.romsets romset).HasRom loc = false := by
          cases hx : (all.romsets romset).HasRom loc
          · rfl
          · exact absurd hx hr
        by_cases ho : EMU_IsOptionalRom romset loc = true
        · simp [hk, hk1, hk2, hr4, ho]
        · have ho4 : EMU_IsOptionalRom romset loc = false := by
            cases hx : EMU_IsOptionalRom romset loc
            · rfl
            · exact absurd hx ho
          simp [hk, hk1, hk2, hr4, ho4]
    · have hk0 : (decide (known.romset = romset) && decide (known.location = loc)) = false := by
        rcases not_and_or.mp hk with h | h
        · simp [h]
        · simp [h]
      simp [hk, hk0]

/-- Claim C5: `EMU_IsCompleteRomset` returns true iff every catalog row of
the romset names a slot that is populated (`HasRom`) or optional; in the
status output, a populated cataloged slot is Present, an unpopulated
mandatory cataloged slot is Missing, a slot with no catalog row stays
Unused; and the only optional pairs are JV880's WAVEROM_CARD and
WAVEROM_EXP. -/
theorem C5_complete_spec (all : AllRomsetInfo) (romset : Romset) :
    ((EMU_IsCompleteRomset all romset).1 = true ↔
      ∀ known ∈ EMU_HASHES, known.romset = romset →
        ((all.romsets romset).HasRom known.location = true ∨
          EMU_IsOptionalRom romset known.location = true)) ∧
    (∀ loc : RomLocation,
      ((∃ known ∈ EMU_HASHES, known.romset = romset ∧ known.location = loc) →
        (all.romsets romset).HasRom loc = true →
        (EMU_IsCompleteRomset all romset).2 loc = .Present) ∧
      ((∃ known ∈ EMU_HASHES, known.romset = romset ∧ known.location = loc) →
        (all.romsets romset).HasRom loc = false →
        EMU_IsOptionalRom romset loc = false →
        (EMU_IsCompleteRomset all romset).2 loc = .Missing) ∧
      ((¬∃ known ∈ EMU_HASHES, known.romset = romset ∧ known.location = loc) →
        (EMU_IsCompleteRomset all romset).2 loc = .Unused)) ∧
    (∀ rs loc, EMU_IsOptionalRom rs loc = true ↔
      rs = .JV880 ∧ (loc = .WAVEROM_CARD ∨ loc = .WAVEROM_EXP)) := by
  refine ⟨?_, ?_, by decide⟩
  · rw [EMU_IsCompleteRomset, completeFold_fst, Bool.true_and, List.all_eq_true]
    constructor
    · intro h known hmem heq
      have hx := h known hmem
      rw [heq] at hx
      rcases Bool.or_eq_true_iff.mp hx with h1 | h1
      · rcases Bool.or_eq_true_iff.mp h1 with h2 | h2
        · exact absurd h2 (by simp)
        · exact Or.inl h2
      · exact Or.inr h1
    · intro h known hmem
      by_cases heq : known.romset = romset
      · rcases h known hmem heq with h1 | h1 <;> simp [h1]
      · simp [heq]
  · intro loc
    refine ⟨?_, ?_, ?_⟩
    · intro hex hr
      rw [EMU_IsCompleteRomset, completeFold_snd]
      have hany : EMU_HASHES.any (fun known => decide (known.romset = romset) &&
          decide (known.location = loc)) = true := by
        rcases hex with ⟨known, hmem, h1, h2⟩
        exact List.any_eq_true.mpr ⟨known, hmem, by simp [h1, h2]⟩
      rw [if_pos (by rw [hany, hr]; rfl), if_pos hr]
    · intro hex hr ho
      rw [EMU_IsCompleteRomset, completeFold_snd]
      have hany : EMU_HASHES.any (fun known => decide (known.romset = romset) &&
          decide (known.location = loc)) = true := by
        rcases hex with ⟨known, hmem, h1, h2⟩
        exact List.any_eq_true.mpr ⟨known, hmem, by simp [h1, h2]⟩
      rw [if_pos (by rw [hany, hr, ho]; rfl), if_neg (by rw [hr]; intro hc; cases hc)]
    · intro hex
      rw [EMU_IsCompleteRomset, completeFold_snd]
      have hany : EMU_HASHES.any (fun known => decide (known.romset = romset) &&
          decide (known.location = loc)) = false := by
        apply List.any_eq_false.mpr
        intro known hmem
        intro hc
        rcases Bool.and_eq_true_iff.mp hc with ⟨c1, c2⟩
        exact hex ⟨known, hmem, of_decide_eq_true c1, of_decide_eq_true c2⟩
      rw [if_neg (by rw [hany]; intro hc; cases hc)]

/-- Witness for C5: with an empty table and romset MK1, the unreferenced
SMROM slot stays Unused, the mandatory ROM1 slot is Missing, and the
romset is not complete. -/
theorem C5_witness :
    (EMU_IsCompleteRomset emptyAllRomsetInfo .MK1).2 .SMROM = .Unused ∧
    (EMU_IsCompleteRomset emptyAllRomsetInfo .MK1).2 .ROM1 = .Missing ∧
    ¬(EMU_IsCompleteRomset emptyAllRomsetInfo .MK1).1 = true :=
  ⟨((C5_complete_spec emptyAllRomsetInfo .MK1).2.1 .SMROM).2.2 (by decide),
    ((C5_complete_spec emptyAllRomsetInfo .MK1).2.1 .ROM1).2.1 (by decide) (by decide)
      (by decide),
    fun hc => by
      have hx := (C5_complete_spec emptyAllRomsetInfo .MK1).1.mp hc
      have hy := hx ⟨0x7e1bacd1d7c62ed66e465ba05597dcd60dfc13fc23de0287fdbce6cf906c6544,
        .MK1, .ROM1⟩ (by decide) rfl
      rcases hy with h | h <;> exact absurd h (by decide)⟩

set_option maxRecDepth 8192 in
theorem pick_first_complete : ∀ b : Romset → Bool,
    (∀ rs, allRomsets.find? b = some rs ↔
      (b rs = true ∧ ∀ rs2 : Romset, rs2.ord < rs.ord → b rs2 = false)) ∧
    (allRomsets.find? b = none ↔ ∀ rs, b rs = false) := by decide

/-- Claim C6: `EMU_PickCompleteRomset` returns the complete romset of
lowest ordinal (no earlier ordinal is complete), and returns none exactly
when no romset is complete. -/
theorem C6_pick_first (all : AllRomsetInfo) :
    (∀ rs, EMU_PickCompleteRomset all = some rs ↔
      ((EMU_IsCompleteRomset all rs).1 = true ∧
        ∀ rs2 : Romset, rs2.ord < rs.ord → (EMU_IsCompleteRomset all rs2).1 = false)) ∧
    (EMU_PickCompleteRomset all = none ↔
      ∀ rs, (EMU_IsCompleteRomset all rs).1 = false) :=
  pick_first_complete (fun rs => (EMU_IsCompleteRomset all rs).1)

/-- Witness for C6: on an empty table no romset is complete, so the picker
returns none. -/
theorem C6_witness : EMU_PickCompleteRomset emptyAllRomsetInfo = none :=
  (C6_pick_first emptyAllRomsetInfo).2.mpr (by decide)

/-! ### The loader (`EMU_LoadRomset` in emu.cpp) -/

theorem rsInfo_setData_data (info : RomsetInfo) (loc : RomLocation) (d : List Nat)
    (l : RomLocation) :
    (info.setData loc d).rom_data l = if l = loc then d else info.rom_data l := rfl

theorem rsInfo_setData_paths (info : RomsetInfo) (loc : RomLocation) (d : List Nat)
    (l : RomLocation) :
    (info.setData loc d).rom_paths l = info.rom_paths l := rfl

/-- One iteration of the per-location loop of `EMU_LoadRomset`. The state
is (all_loaded, per-slot status, the romset's info); `fs` models
`EMU_ReadAllBytes`, which either fails (`none`) or yields the file's
bytes. Wave locations store the descrambled bytes, others the raw bytes. -/
def loadStep (fs : String → Option (List Nat))
    (st : Bool × (RomLocation → RomLoadStatus) × RomsetInfo) (loc : RomLocation) :
    Bool × (RomLocation → RomLoadStatus) × RomsetInfo :=
  if st.2.2.rom_paths loc = "" ∧ st.2.2.rom_data loc = [] then
    (st.1, fun l => if l = loc then .Unused else st.2.1 l, st.2.2)
  else if ¬st.2.2.rom_paths loc = "" ∧ st.2.2.rom_data loc = [] then
    match fs (st.2.2.rom_paths loc) with
    | none => (false, fun l => if l = loc then .Failed else st.2.1 l, st.2.2)
    | some bytes =>
      (st.1, fun l => if l = loc then .Loaded else st.2.1 l,
        if EMU_IsWaverom loc then st.2.2.setData loc (unscrambleWith aa dd bytes)
        else st.2.2.setData loc bytes)
  else if ¬st.2.2.rom_data loc = [] then
    (st.1, fun l => if l = loc then .Loaded else st.2.1 l, st.2.2)
  else st

/-- The whole per-location loop of `EMU_LoadRomset` over the target
romset's info. -/
def loadFold (romset : Romset) (all : AllRomsetInfo) (fs : String → Option (List Nat)) :
    Bool × (RomLocation → RomLoadStatus) × RomsetInfo :=
  allLocations.foldl (loadStep fs) (true, fun _ => .Unused, all.romsets romset)

/-- `EMU_LoadRomset` from emu.cpp: returns the aggregate success flag, the
per-slot load status, and the table with the target romset's info updated
in place. -/
def EMU_LoadRomset (romset : Romset) (all : AllRomsetInfo)
    (fs : String → Option (List Nat)) :
    Bool × (RomLocation → RomLoadStatus) × AllRomsetInfo :=
  ((loadFold romset all fs).1, (loadFold romset all fs).2.1,
    all.modify romset (fun _ => (loadFold romset all fs).2.2))

theorem loadStep_frame (fs : String → Option (List Nat))
    (st : Bool × (RomLocation → RomLoadStatus) × RomsetInfo) (loc2 loc : RomLocation)
    (h : loc2 ≠ loc) :
    (loadStep fs st loc2).2.1 loc = st.2.1 loc ∧
    (loadStep fs st loc2).2.2.rom_paths loc = st.2.2.rom_paths loc ∧
    (loadStep fs st loc2).2.2.rom_data loc = st.2.2.rom_data loc := by
  have h2 : ¬(loc = loc2) := fun hx => h hx.symm
  unfold loadStep
  split
  · exact ⟨by simp [h2], rfl, rfl⟩
  split
  · split
    · exact ⟨by simp [h2], rfl, rfl⟩
    · refine ⟨by simp [h2], ?_, ?_⟩
      · split <;> rw [rsInfo_setData_paths]
      · split <;> rw [rsInfo_setData_data, if_neg h2]
  split
  · exact ⟨by simp [h2], rfl, rfl⟩
  · exact ⟨rfl, rfl, rfl⟩

theorem loadFold_frame (fs : String → Option (List Nat)) :
    ∀ (l : List RomLocation) (st : Bool × (RomLocation → RomLoadStatus) × RomsetInfo)
      (loc : RomLocation), loc ∉ l →
    (l.foldl (loadStep fs) st).2.1 loc = st.2.1 loc ∧
    (l.foldl (loadStep fs) st).2.2.rom_paths loc = st.2.2.rom_paths loc ∧
    (l.foldl (loadStep fs) st).2.2.rom_data loc = st.2.2.rom_data loc
  | [], _, _, _ => ⟨rfl, rfl, rfl⟩
  | loc2 :: l, st, loc, hmem => by
    simp only [List.foldl_cons]
    have hne : loc2 ≠ loc := fun hx => hmem (hx ▸ List.mem_cons_self loc2 l)
    have hstep := loadStep_frame fs st loc2 loc hne
    have hrec := loadFold_frame fs l (loadStep fs st loc2) loc
      (fun hx => hmem (List.mem_cons_of_mem loc2 hx))
    exact ⟨hrec.1.trans hstep.1, hrec.2.1.trans hstep.2.1, hrec.2.2.trans hstep.2.2⟩

/-- Decomposition of the location list around any location. -/
theorem allLocations_decomp (loc : RomLocation) :
    ∃ l1 l2, allLocations = l1 ++ loc :: l2 ∧ loc ∉ l1 ∧ loc ∉ l2 := by
  cases loc
  · exact ⟨[], [.ROM2, .SMROM, .WAVEROM1, .WAVEROM2, .WAVEROM3, .WAVEROM_CARD, .WAVEROM_EXP],
      rfl, by decide, by decide⟩
  · exact ⟨[.ROM1], [.SMROM, .WAVEROM1, .WAVEROM2, .WAVEROM3, .WAVEROM_CARD, .WAVEROM_EXP],
      rfl, by decide, by decide⟩
  · exact ⟨[.ROM1, .ROM2], [.WAVEROM1, .WAVEROM2, .WAVEROM3, .WAVEROM_CARD, .WAVEROM_EXP],
      rfl, by decide, by decide⟩
  · exact ⟨[.ROM1, .ROM2, .SMROM], [.WAVEROM2, .WAVEROM3, .WAVEROM_CARD, .WAVEROM_EXP],
      rfl, by decide, by decide⟩
  · exact ⟨[.ROM1, .ROM2, .SMROM, .WAVEROM1], [.WAVEROM3, .WAVEROM_CARD, .WAVEROM_EXP],
      rfl, by decide, by decide⟩
  · exact ⟨[.ROM1, .ROM2, .SMROM, .WAVEROM1, .WAVEROM2], [.WAVEROM_CARD, .WAVEROM_EXP],
      rfl, by decide, by decide⟩
  · exact ⟨[.ROM1, .ROM2, .SMROM, .WAVEROM1, .WAVEROM2, .WAVEROM3], [.WAVEROM_EXP],
      rfl, by decide, by decide⟩
  · exact ⟨[.ROM1, .ROM2, .SMROM, .WAVEROM1, .WAVEROM2, .WAVEROM3, .WAVEROM_CARD], [],
      rfl, by decide, by decide⟩

/-- The fields of the fold at a location are those of applying that
location's own step to the state reached before it, where the input fields
at that location are the original ones. -/
theorem loadFold_eval (romset : Romset) (all : AllRomsetInfo)
    (fs : String → Option (List Nat)) (loc : RomLocation) :
    ∃ st : Bool × (RomLocation → RomLoadStatus) × RomsetInfo,
      st.2.2.rom_paths loc = (all.romsets romset).rom_paths loc ∧
      st.2.2.rom_data loc = (all.romsets romset).rom_data loc ∧
      (loadFold romset all fs).2.1 loc = (loadStep fs st loc).2.1 loc ∧
      (loadFold romset all fs).2.2.rom_data loc = (loadStep fs st loc).2.2.rom_data loc := by
  obtain ⟨l1, l2, hsplit, h1, h2⟩ := allLocations_decomp loc
  refine ⟨l1.foldl (loadStep fs) (true, fun _ => .Unused, all.romsets romset), ?_, ?_, ?_, ?_⟩
  · exact (loadFold_frame fs l1 _ loc h1).2.1
  · exact (loadFold_frame fs l1 _ loc h1).2.2
  · rw [loadFold, hsplit, List.foldl_append, List.foldl_cons]
    exact (loadFold_frame fs l2 _ loc h2).1
  · rw [loadFold, hsplit, List.foldl_append, List.foldl_cons]
    exact (loadFold_frame fs l2 _ loc h2).2.2

theorem mem_allLocations (loc : RomLocation) : loc ∈ allLocations := by
  cases loc <;> decide

theorem modify_self (all : AllRomsetInfo) (rs : Romset) (f : RomsetInfo → RomsetInfo) :
    (all.modify rs f).romsets rs = f (all.romsets rs) := by
  unfold AllRomsetInfo.modify
  simp

theorem loadStep_self_unused (fs : String → Option (List Nat))
    (st : Bool × (RomLocation → RomLoadStatus) × RomsetInfo) (loc : RomLocation)
    (hp : st.2.2.rom_paths loc = "") (hd : st.2.2.rom_data loc = []) :
    (loadStep fs st loc).2.1 loc = .Unused ∧
    (loadStep fs st loc).2.2.rom_data loc = st.2.2.rom_data loc := by
  unfold loadStep
  rw [if_pos ⟨hp, hd⟩]
  exact ⟨by simp, rfl⟩

theorem loadStep_self_cached (fs : String → Option (List Nat))
    (st : Bool × (RomLocation → RomLoadStatus) × RomsetInfo) (loc : RomLocation)
    (hd : ¬st.2.2.rom_data loc = []) :
    (loadStep fs st loc).2.1 loc = .Loaded ∧
    (loadStep fs st loc).1 = st.1 ∧
    (loadStep fs st loc).2.2.rom_data loc = st.2.2.rom_data loc := by
  unfold loadStep
  rw [if_neg (fun hc => hd hc.2), if_neg (fun hc => hd hc.2), if_pos hd]
  exact ⟨by simp, rfl, rfl⟩

theorem loadStep_self_fail (fs : String → Option (List Nat))
    (st : Bool × (RomLocation → RomLoadStatus) × RomsetInfo) (loc : RomLocation)
    (hp : ¬st.2.2.rom_paths loc = "") (hd : st.2.2.rom_data loc = [])
    (hfs : fs (st.2.2.rom_paths loc) = none) :
    (loadStep fs st loc).2.1 loc = .Failed ∧
    (loadStep fs st loc).1 = false ∧
    (loadStep fs st loc).2.2.rom_data loc = st.2.2.rom_data loc := by
  unfold loadStep
  rw [if_neg (fun hc => hp hc.1), if_pos ⟨hp, hd⟩, hfs]
  exact ⟨by simp, rfl, rfl⟩

theorem loadStep_self_load (fs : String → Option (List Nat))
    (st : Bool × (RomLocation → RomLoadStatus) × RomsetInfo) (loc : RomLocation)
    (bytes : List Nat) (hp : ¬st.2.2.rom_paths loc = "") (hd : st.2.2.rom_data loc = [])
    (hfs : fs (st.2.2.rom_paths loc) = some bytes) :
    (loadStep fs st loc).2.1 loc = .Loaded ∧
    (loadStep fs st loc).1 = st.1 ∧
    (loadStep fs st loc).2.2.rom_data loc =
      (if EMU_IsWaverom loc = true then unscrambleWith aa dd bytes else bytes) := by
  unfold loadStep
  rw [if_neg (fun hc => hp hc.1), if_pos ⟨hp, hd⟩, hfs]
  refine ⟨by simp, rfl, ?_⟩
  show (if EMU_IsWaverom loc = true then st.2.2.setData loc (unscrambleWith aa dd bytes)
      else st.2.2.setData loc bytes).rom_data loc =
    (if EMU_IsWaverom loc = true then unscrambleWith aa dd bytes else bytes)
  by_cases hw : EMU_IsWaverom loc = true
  · rw [if_pos hw, if_pos hw, rsInfo_setData_data, if_pos rfl]
  · rw [if_neg hw, if_neg hw, rsInfo_setData_data, if_pos rfl]

theorem loadStep_fst (fs : String → Option (List Nat))
    (st : Bool × (RomLocation → RomLoadStatus) × RomsetInfo) (loc2 : RomLocation) :
    (loadStep fs st loc2).1 =
      (st.1 && !(decide (¬st.2.2.rom_paths loc2 = "") && decide (st.2.2.rom_data loc2 = []) &&
        (fs (st.2.2.rom_paths loc2)).isNone)) := by
  unfold loadStep
  by_cases hp : st.2.2.rom_paths loc2 = ""
  · by_cases hd : st.2.2.rom_data loc2 = []
    · rw [if_pos ⟨hp, hd⟩]
      simp [hp]
    · rw [if_neg (fun hc => hd hc.2), if_neg (fun hc => hc.1 hp), if_pos hd]
      simp [hp]
  · by_cases hd : st.2.2.rom_data loc2 = []
    · rw [if_neg (fun hc => hp hc.1), if_pos ⟨hp, hd⟩]
      cases hfs : fs (st.2.2.rom_paths loc2)
      · simp [hp, hd, hfs]
      · simp [hp, hd, hfs]
    · rw [if_neg (fun hc => hd hc.2), if_neg (fun hc => hd hc.2), if_pos hd]
      simp [hd]

theorem loadFold_fst_aux (fs : String → Option (List Nat)) :
    ∀ (l : List RomLocation) (st : Bool × (RomLocation → RomLoadStatus) × RomsetInfo),
      l.Nodup →
      (l.foldl (loadStep fs) st).1 =
        (st.1 && l.all (fun loc => !(decide (¬st.2.2.rom_paths loc = "") &&
          decide (st.2.2.rom_data loc = []) && (fs (st.2.2.rom_paths loc)).isNone)))
  | [], st, _ => by simp
  | loc2 :: l, st, hnd => by
    simp only [List.foldl_cons, List.all_cons]
    have hnd2 := List.nodup_cons.mp hnd
    rw [loadFold_fst_aux fs l _ hnd2.2, loadStep_fst]
    have hcong : (l.all (fun loc => !(decide (¬(loadStep fs st loc2).2.2.rom_paths loc = "") &&
          decide ((loadStep fs st loc2).2.2.rom_data loc = []) &&
          (fs ((loadStep fs st loc2).2.2.rom_paths loc)).isNone))) =
        (l.all (fun loc => !(decide (¬st.2.2.rom_paths loc = "") &&
          decide (st.2.2.rom_data loc = []) && (fs (st.2.2.rom_paths loc)).isNone))) := by
      apply listAll_congr
      intro loc hloc
      have hne : loc2 ≠ loc := fun hx => hnd2.1 (hx ▸ hloc)
      have hframe := loadStep_frame fs st loc2 loc hne
      rw [hframe.2.1, hframe.2.2]
    rw [hcong, Bool.and_assoc]

/-- Claim C7: per slot of the target romset, `EMU_LoadRomset` marks Unused
and leaves data alone when neither path nor data is set; marks Loaded
without changing data when data is already set; with a path and no data it
reads the file — marking Failed on read failure, and on success storing
the descrambled bytes for wave slots or the raw bytes otherwise and
marking Loaded; and it returns true iff no attempted read failed. -/
theorem C7_loader_spec (romset : Romset) (all : AllRomsetInfo)
    (fs : String → Option (List Nat)) :
    (∀ loc : RomLocation,
      ((all.romsets romset).rom_paths loc = "" → (all.romsets romset).rom_data loc = [] →
        (EMU_LoadRomset romset all fs).2.1 loc = .Unused ∧
        ((EMU_LoadRomset romset all fs).2.2.romsets romset).rom_data loc =
          (all.romsets romset).rom_data loc) ∧
      (¬(all.romsets romset).rom_data loc = [] →
        (EMU_LoadRomset romset all fs).2.1 loc = .Loaded ∧
        ((EMU_LoadRomset romset all fs).2.2.romsets romset).rom_data loc =
          (all.romsets romset).rom_data loc) ∧
      (¬(all.romsets romset).rom_paths loc = "" → (all.romsets romset).rom_data loc = [] →
        fs ((all.romsets romset).rom_paths loc) = none →
        (EMU_LoadRomset romset all fs).2.1 loc = .Failed) ∧
      (∀ bytes : List Nat, ¬(all.romsets romset).rom_paths loc = "" →
        (all.romsets romset).rom_data loc = [] →
        fs ((all.romsets romset).rom_paths loc) = some bytes →
        (EMU_LoadRomset romset all fs).2.1 loc = .Loaded ∧
        ((EMU_LoadRomset romset all fs).2.2.romsets romset).rom_data loc =
          (if EMU_IsWaverom loc = true then unscrambleWith aa dd bytes else bytes))) ∧
    ((EMU_LoadRomset romset all fs).1 = true ↔
      ∀ loc : RomLocation, ¬(¬(all.romsets romset).rom_paths loc = "" ∧
        (all.romsets romset).rom_data loc = [] ∧
        fs ((all.romsets romset).rom_paths loc) = none)) := by
  have hproj : ∀ loc, (EMU_LoadRomset romset all fs).2.1 loc =
      (loadFold romset all fs).2.1 loc := by
    intro loc
    rw [EMU_LoadRomset]
  have hdataproj : ((EMU_LoadRomset romset all fs).2.2.romsets romset) =
      (loadFold romset all fs).2.2 := by
    rw [EMU_LoadRomset]
    exact modify_self all romset (fun _ => (loadFold romset all fs).2.2)
  constructor
  · intro loc
    obtain ⟨st, hstp, hstd, hs1, hs2⟩ := loadFold_eval romset all fs loc
    refine ⟨?_, ?_, ?_, ?_⟩
    · intro hp hd
      have h := loadStep_self_unused fs st loc (by rw [hstp]; exact hp) (by rw [hstd]; exact hd)
      exact ⟨(hproj loc).trans (hs1.trans h.1),
        by rw [hdataproj, hs2, h.2, hstd]⟩
    · intro hd
      have h := loadStep_self_cached fs st loc (by rw [hstd]; exact hd)
      exact ⟨(hproj loc).trans (hs1.trans h.1),
        by rw [hdataproj, hs2, h.2.2, hstd]⟩
    · intro hp hd hfs
      have h := loadStep_self_fail fs st loc (by rw [hstp]; exact hp) (by rw [hstd]; exact hd)
        (by rw [hstp]; exact hfs)
      exact (hproj loc).trans (hs1.trans h.1)
    · intro bytes hp hd hfs
      have h := loadStep_self_load fs st loc bytes (by rw [hstp]; exact hp)
        (by rw [hstd]; exact hd) (by rw [hstp]; exact hfs)
      exact ⟨(hproj loc).trans (hs1.trans h.1), by rw [hdataproj, hs2, h.2.2]⟩
  · have hfst : (EMU_LoadRomset romset all fs).1 = (loadFold romset all fs).1 := by
      rw [EMU_LoadRomset]
    rw [hfst, loadFold, loadFold_fst_aux fs allLocations _ (by decide), Bool.true_and,
      List.all_eq_true]
    constructor
    · intro h loc
      have hx := h loc (mem_allLocations loc)
      rintro ⟨hA, hB, hC⟩
      rw [decide_eq_true hA, decide_eq_true hB, hC] at hx
      simp at hx
    · intro h loc _
      have hx := h loc
      by_cases hA : (all.romsets romset).rom_paths loc = ""
      · simp [hA]
      · by_cases hB : (all.romsets romset).rom_data loc = []
        · cases hfs : fs ((all.romsets romset).rom_paths loc) with
          | none => exact absurd ⟨hA, hB, hfs⟩ hx
          | some bytes => simp [hA, hB, hfs]
        · simp [hA, hB]

/-- A table for the loader witness: MK2 has a readable path at ROM1,
cached data at ROM2, and an unreadable path at SMROM. -/
def loaderAll : AllRomsetInfo :=
  ((emptyAllRomsetInfo.setPath .MK2 .ROM1 "a.bin").setData .MK2 .ROM2 [5]).setPath
    .MK2 .SMROM "bad.bin"

/-- The filesystem for the loader witness: only "a.bin" is readable. -/
def loaderFs : String → Option (List Nat) :=
  fun p => if p = "a.bin" then some [9] else none

/-- Witness for C7 on a concrete table: WAVEROM1 is Unused, cached ROM2 is
Loaded, unreadable SMROM is Failed, readable ROM1 is Loaded with its raw
bytes stored. -/
theorem C7_witness :
    (EMU_LoadRomset .MK2 loaderAll loaderFs).2.1 .WAVEROM1 = .Unused ∧
    (EMU_LoadRomset .MK2 loaderAll loaderFs).2.1 .ROM2 = .Loaded ∧
    (EMU_LoadRomset .MK2 loaderAll loaderFs).2.1 .SMROM = .Failed ∧
    (EMU_LoadRomset .MK2 loaderAll loaderFs).2.1 .ROM1 = .Loaded ∧
    ((EMU_LoadRomset .MK2 loaderAll loaderFs).2.2.romsets .MK2).rom_data .ROM1 = [9] :=
  ⟨(((C7_loader_spec .MK2 loaderAll loaderFs).1 .WAVEROM1).1 (by decide) (by decide)).1,
    (((C7_loader_spec .MK2 loaderAll loaderFs).1 .ROM2).2.1 (by decide)).1,
    ((C7_loader_spec .MK2 loaderAll loaderFs).1 .SMROM).2.2.1 (by decide) (by decide)
      (by decide),
    (((C7_loader_spec .MK2 loaderAll loaderFs).1 .ROM1).2.2.2 [9] (by decide) (by decide)
      (by decide)).1,
    ((((C7_loader_spec .MK2 loaderAll loaderFs).1 .ROM1).2.2.2 [9] (by decide) (by decide)
      (by decide)).2).trans (by decide)⟩

/-! ### The override step of `LoadRomset` (rom_loader.cpp) -/

/-- The inner-loop body of the override step of `LoadRomset` for romset
`rs` and location `loc`: a non-empty override path is written into the
slot's path and the slot's cached data is cleared. -/
def overrideStep (ov : RomLocation → String) (rs : Romset) (acc : AllRomsetInfo)
    (loc : RomLocation) : AllRomsetInfo :=
  if ¬ov loc = "" then (acc.setPath rs loc (ov loc)).setData rs loc [] else acc

/-- The override step of `LoadRomset` (rom_loader.cpp): the double loop
over all romsets and all locations. -/
def applyOverrides (all : AllRomsetInfo) (ov : RomLocation → String) : AllRomsetInfo :=
  allRomsets.foldl (fun acc rs => allLocations.foldl (overrideStep ov rs) acc) all

theorem setPath_other (all : AllRomsetInfo) (r : Romset) (l : RomLocation) (p : String)
    (rs0 : Romset) (h : rs0 ≠ r) : (all.setPath r l p).romsets rs0 = all.romsets rs0 := by
  unfold AllRomsetInfo.setPath AllRomsetInfo.modify
  simp [h]

theorem setData_other (all : AllRomsetInfo) (r : Romset) (l : RomLocation) (d : List Nat)
    (rs0 : Romset) (h : rs0 ≠ r) : (all.setData r l d).romsets rs0 = all.romsets rs0 := by
  unfold AllRomsetInfo.setData AllRomsetInfo.modify
  simp [h]

theorem overrideStep_frame (ov : RomLocation → String) (rs : Romset) (acc : AllRomsetInfo)
    (loc2 : RomLocation) (rs0 : Romset) (loc0 : RomLocation)
    (h : ¬(rs0 = rs ∧ loc0 = loc2)) :
    ((overrideStep ov rs acc loc2).romsets rs0).rom_paths loc0 =
      (acc.romsets rs0).rom_paths loc0 ∧
    ((overrideStep ov rs acc loc2).romsets rs0).rom_data loc0 =
      (acc.romsets rs0).rom_data loc0 := by
  unfold overrideStep
  split
  · constructor
    · rw [setData_paths, setPath_paths, if_neg h]
    · rw [setData_data, if_neg h, setPath_data]
  · exact ⟨rfl, rfl⟩

theorem overrideStep_self_set (ov : RomLocation → String) (rs : Romset)
    (acc : AllRomsetInfo) (loc : RomLocation) (h : ¬ov loc = "") :
    ((overrideStep ov rs acc loc).romsets rs).rom_paths loc = ov loc ∧
    ((overrideStep ov rs acc loc).romsets rs).rom_data loc = [] := by
  unfold overrideStep
  rw [if_pos h]
  exact ⟨by rw [setData_paths, setPath_paths, if_pos ⟨rfl, rfl⟩],
    by rw [setData_data, if_pos ⟨rfl, rfl⟩]⟩

theorem overrideStep_self_skip (ov : RomLocation → String) (rs : Romset)
    (acc : AllRomsetInfo) (loc : RomLocation) (h : ov loc = "") :
    overrideStep ov rs acc loc = acc := by
  unfold overrideStep
  rw [if_neg (fun hc => hc h)]

theorem innerFold_other_romset (ov : RomLocation → String) (rs : Romset) :
    ∀ (l : List RomLocation) (acc : AllRomsetInfo) (rs0 : Romset), rs0 ≠ rs →
      (l.foldl (overrideStep ov rs) acc).romsets rs0 = acc.romsets rs0
  | [], _, _, _ => rfl
  | loc2 :: l, acc, rs0, h => by
    simp only [List.foldl_cons]
    rw [innerFold_other_romset ov rs l _ rs0 h]
    unfold overrideStep
    split
    · rw [setData_other _ _ _ _ _ h, setPath_other _ _ _ _ _ h]
    · rfl

theorem innerFold_frame (ov : RomLocation → String) (rs : Romset) :
    ∀ (l : List RomLocation) (acc : AllRomsetInfo) (loc : RomLocation), loc ∉ l →
      ((l.foldl (overrideStep ov rs) acc).romsets rs).rom_paths loc =
        (acc.romsets rs).rom_paths loc ∧
      ((l.foldl (overrideStep ov rs) acc).romsets rs).rom_data loc =
        (acc.romsets rs).rom_data loc
  | [], _, _, _ => ⟨rfl, rfl⟩
  | loc2 :: l, acc, loc, hmem => by
    simp only [List.foldl_cons]
    have hne : ¬(rs = rs ∧ loc = loc2) :=
      fun hc => hmem (hc.2 ▸ List.mem_cons_self loc2 l)
    have hstep := overrideStep_frame ov rs acc loc2 rs loc hne
    have hrec := innerFold_frame ov rs l (overrideStep ov rs acc loc2) loc
      (fun hx => hmem (List.mem_cons_of_mem loc2 hx))
    exact ⟨hrec.1.trans hstep.1, hrec.2.trans hstep.2⟩

theorem innerFold_eval (ov : RomLocation → String) (rs : Romset) (acc : AllRomsetInfo)
    (loc : RomLocation) :
    ((allLocations.foldl (overrideStep ov rs) acc).romsets rs).rom_paths loc =
      (if ¬ov loc = "" then ov loc else (acc.romsets rs).rom_paths loc) ∧
    ((allLocations.foldl (overrideStep ov rs) acc).romsets rs).rom_data loc =
      (if ¬ov loc = "" then [] else (acc.romsets rs).rom_data loc) := by
  obtain ⟨l1, l2, hsplit, h1, h2⟩ := allLocations_decomp loc
  rw [hsplit, List.foldl_append, List.foldl_cons]
  have hframe1 := innerFold_frame ov rs l1 acc loc h1
  by_cases h : ¬ov loc = ""
  · have hframe2 := innerFold_frame ov rs l2
      (overrideStep ov rs (l1.foldl (overrideStep ov rs) acc) loc) loc h2
    have hself := overrideStep_self_set ov rs (l1.foldl (overrideStep ov rs) acc) loc h
    rw [if_pos h, if_pos h]
    exact ⟨hframe2.1.trans hself.1, hframe2.2.trans hself.2⟩
  · have hov : ov loc = "" := not_not.mp h
    have hself := overrideStep_self_skip ov rs (l1.foldl (overrideStep ov rs) acc) loc hov
    rw [if_neg h, if_neg h, hself]
    have hframe2 := innerFold_frame ov rs l2 (l1.foldl (overrideStep ov rs) acc) loc h2
    exact ⟨hframe2.1.trans hframe1.1, hframe2.2.trans hframe1.2⟩

/-- Decomposition of the romset list around any romset. -/
theorem allRomsets_decomp (rs : Romset) :
    ∃ l1 l2, allRomsets = l1 ++ rs :: l2 ∧ rs ∉ l1 ∧ rs ∉ l2 := by
  cases rs
  · exact ⟨[], [.ST, .MK1, .CM300, .JV880, .SCB55, .RLP3237, .SC155, .SC155MK2],
      rfl, by decide, by decide⟩
  · exact ⟨[.MK2], [.MK1, .CM300, .JV880, .SCB55, .RLP3237, .SC155, .SC155MK2],
      rfl, by decide, by decide⟩
  · exact ⟨[.MK2, .ST], [.CM300, .JV880, .SCB55, .RLP3237, .SC155, .SC155MK2],
      rfl, by decide, by decide⟩
  · exact ⟨[.MK2, .ST, .MK1], [.JV880, .SCB55, .RLP3237, .SC155, .SC155MK2],
      rfl, by decide, by decide⟩
  · exact ⟨[.MK2, .ST, .MK1, .CM300], [.SCB55, .RLP3237, .SC155, .SC155MK2],
      rfl, by decide, by decide⟩
  · exact ⟨[.MK2, .ST, .MK1, .CM300, .JV880], [.RLP3237, .SC155, .SC155MK2],
      rfl, by decide, by decide⟩
  · exact ⟨[.MK2, .ST, .MK1, .CM300, .JV880, .SCB55], [.SC155, .SC155MK2],
      rfl, by decide, by decide⟩
  · exact ⟨[.MK2, .ST, .MK1, .CM300, .JV880, .SCB55, .RLP3237], [.SC155MK2],
      rfl, by decide, by decide⟩
  · exact ⟨[.MK2, .ST, .MK1, .CM300, .JV880, .SCB55, .RLP3237, .SC155], [],
      rfl, by decide, by decide⟩

theorem outerFold_frame (ov : RomLocation → String) :
    ∀ (l : List Romset) (acc : AllRomsetInfo) (rs : Romset), rs ∉ l →
      ((l.foldl (fun acc2 rs2 => allLocations.foldl (overrideStep ov rs2) acc2) acc).romsets
        rs) = acc.romsets rs
  | [], _, _, _ => rfl
  | rs2 :: l, acc, rs, hmem => by
    simp only [List.foldl_cons]
    have hne : rs ≠ rs2 := fun hx => hmem (hx ▸ List.mem_cons_self rs2 l)
    rw [outerFold_frame ov l _ rs (fun hx => hmem (List.mem_cons_of_mem rs2 hx))]
    exact innerFold_other_romset ov rs2 allLocations acc rs hne

/-- Claim C8: after the override step, for every slot with a non-empty
override path, every romset's entry has that slot's path equal to the
override and its data cleared; slots with an empty override are unchanged
in every romset. -/
theorem C8_overrides_spec (all : AllRomsetInfo) (ov : RomLocation → String) (rs : Romset)
    (loc : RomLocation) :
    (¬ov loc = "" →
      ((applyOverrides all ov).romsets rs).rom_paths loc = ov loc ∧
      ((applyOverrides all ov).romsets rs).rom_data loc = []) ∧
    (ov loc = "" →
      ((applyOverrides all ov).romsets rs).rom_paths loc = (all.romsets rs).rom_paths loc ∧
      ((applyOverrides all ov).romsets rs).rom_data loc =
        (all.romsets rs).rom_data loc) := by
  obtain ⟨l1, l2, hsplit, h1, h2⟩ := allRomsets_decomp rs
  have hchain : ((applyOverrides all ov).romsets rs) =
      ((allLocations.foldl (overrideStep ov rs)
        (l1.foldl (fun acc2 rs2 => allLocations.foldl (overrideStep ov rs2) acc2) all)).romsets
          rs) := by
    rw [applyOverrides, hsplit, List.foldl_append, List.foldl_cons]
    exact outerFold_frame ov l2 _ rs h2
  have hinner := innerFold_eval ov rs
    (l1.foldl (fun acc2 rs2 => allLocations.foldl (overrideStep ov rs2) acc2) all) loc
  have hpre := outerFold_frame ov l1 all rs h1
  constructor
  · intro h
    rw [if_pos h, if_pos h] at hinner
    exact ⟨hchain ▸ hinner.1, hchain ▸ hinner.2⟩
  · intro h
    rw [if_neg (fun hc => hc h), if_neg (fun hc => hc h)] at hinner
    rw [hpre] at hinner
    exact ⟨hchain ▸ hinner.1, hchain ▸ hinner.2⟩

/-- Overrides for the witness: only ROM1 is overridden. -/
def witnessOv : RomLocation → String :=
  fun loc => if loc = .ROM1 then "ov.bin" else ""

/-- Witness for C8 on a concrete table: the ROM1 override path lands in
both MK2 (which had a different path) and JV880, with data cleared, while
an un-overridden slot keeps its value. -/
theorem C8_witness :
    ((applyOverrides preSeededAll witnessOv).romsets .MK2).rom_paths .ROM1 = "ov.bin" ∧
    ((applyOverrides preSeededAll witnessOv).romsets .JV880).rom_data .ROM1 = [] ∧
    ((applyOverrides preSeededAll witnessOv).romsets .MK2).rom_paths .ROM2 =
      ((preSeededAll.romsets .MK2).rom_paths .ROM2) :=
  ⟨((C8_overrides_spec preSeededAll witnessOv .MK2 .ROM1).1 (by decide)).1,
    ((C8_overrides_spec preSeededAll witnessOv .JV880 .ROM1).1 (by decide)).2,
    ((C8_overrides_spec preSeededAll witnessOv .MK2 .ROM2).2 (by decide)).1⟩

end SC55
